import Mathlib

/-!
Verification of the Learning_Agent repository's analytics engine.

The Python sources are shallowly embedded over `ℚ` (Python floats and
`Decimal`s become exact rationals; ISO-8601 timestamps stay strings and are
compared lexicographically, as Python's `sort` does).  External numeric
capabilities that the code calls but the spec scopes out (numpy's `std`,
the pandas_ta indicator stack) are passed in as explicit function
parameters, so every theorem quantifies over them.  Mutation of the request
object by `run_learning_cycle` is made explicit by returning the final
request alongside the response.
-/

namespace LearningAgent

namespace Logic

/-- Constant `ASSET_MIN_TRADES_WARMUP` of src/learning_agent/logic.py. -/
def ASSET_MIN_TRADES_WARMUP : Nat := 10

/-- Constant `MAX_DRAWDOWN_THRESHOLD` of src/learning_agent/logic.py. -/
def MAX_DRAWDOWN_THRESHOLD : ℚ := 8 / 100

/-- Constant `CONSECUTIVE_LOSS_THRESHOLD` of src/learning_agent/logic.py. -/
def CONSECUTIVE_LOSS_THRESHOLD : Nat := 3

/-- Constant `RECENT_TRADES_WINDOW` of src/learning_agent/logic.py. -/
def RECENT_TRADES_WINDOW : Nat := 10

/-- Constant `RISK_PER_TRADE_ADJUSTMENT` of src/learning_agent/logic.py. -/
def RISK_PER_TRADE_ADJUSTMENT : ℚ := -(5 / 1000)

/-- Constant `PERFORMANCE_UPPER_THRESHOLD` of src/learning_agent/logic.py. -/
def PERFORMANCE_UPPER_THRESHOLD : ℚ := 70 / 100

/-- Constant `PERFORMANCE_LOWER_THRESHOLD` of src/learning_agent/logic.py. -/
def PERFORMANCE_LOWER_THRESHOLD : ℚ := 45 / 100

/-- Constant `BIAS_ADJUSTMENT_INCREMENT` of src/learning_agent/logic.py. -/
def BIAS_ADJUSTMENT_INCREMENT : ℚ := 5 / 100

/-- Constant `WEIGHT_WIN_RATE` of src/learning_agent/logic.py. -/
def WEIGHT_WIN_RATE : ℚ := 50 / 100

/-- Constant `WEIGHT_MAX_DRAWDOWN` of src/learning_agent/logic.py. -/
def WEIGHT_MAX_DRAWDOWN : ℚ := 35 / 100

/-- Constant `WEIGHT_VOLATILITY` of src/learning_agent/logic.py. -/
def WEIGHT_VOLATILITY : ℚ := 15 / 100

/-- Constant `MAX_ACCEPTABLE_DRAWDOWN` of src/learning_agent/logic.py. -/
def MAX_ACCEPTABLE_DRAWDOWN : ℚ := 20 / 100

/-- Constant `MAX_ACCEPTABLE_VOLATILITY` of src/learning_agent/logic.py. -/
def MAX_ACCEPTABLE_VOLATILITY : ℚ := 10 / 100

/-- Class `PricePoint` of src/learning_agent/models.py: one OHLCV point.
The Python field `open` is a Lean keyword, hence `open_`. -/
structure PricePoint where
  timestamp : String
  open_ : ℚ
  high : ℚ
  low : ℚ
  close : ℚ
  volume : ℤ
deriving DecidableEq

/-- Class `Trade` of src/learning_agent/models.py.  `quantity`, `price` and
the optional pnl and entry/exit prices are Python `Decimal`s, embedded as
rationals.  `executed_at` is an ISO-8601 timestamp string. -/
structure Trade where
  trade_id : String
  account_id : String
  asset_id : String
  symbol : String
  side : String
  quantity : ℚ
  price : ℚ
  executed_at : String
  agents : List (String × String) := []
  pnl_pct : Option ℚ := none
  entry_price : Option ℚ := none
  exit_price : Option ℚ := none
deriving DecidableEq

/-- The `execution_result` dict of src/learning_agent/logic.py lines 93-107:
only the four keys the code reads are modelled; a field is `none` when the
key is absent from the dict. -/
structure ExecutionResult where
  status : Option String := none
  pnl_pct : Option ℚ := none
  entry_price : Option ℚ := none
  exit_price : Option ℚ := none
deriving DecidableEq

/-- Class `CurrentPolicyRisk` of src/learning_agent/models.py. -/
structure CurrentPolicyRisk where
  risk_per_trade : ℚ
  max_position_pct : ℚ
  stop_loss_pct : ℚ
deriving DecidableEq

/-- Class `CurrentPolicyStrategyBias` of src/learning_agent/models.py. -/
structure CurrentPolicyStrategyBias where
  preferred_regime : String
deriving DecidableEq

/-- Class `CurrentPolicy` of src/learning_agent/models.py; dicts become
association lists. -/
structure CurrentPolicy where
  agent_weights : List (String × ℚ)
  risk : CurrentPolicyRisk
  strategy_bias : CurrentPolicyStrategyBias
deriving DecidableEq

/-- Class `LearningRequest` of src/learning_agent/models.py. -/
structure LearningRequest where
  learning_mode : String
  window_size : Nat
  trade_history : List Trade
  price_history : List (String × List PricePoint)
  current_policy : CurrentPolicy
  execution_result : Option ExecutionResult := none
deriving DecidableEq

/-- Class `PolicyDeltas` of src/learning_agent/models.py; the dict-valued
fields become association lists kept in insertion order. -/
structure PolicyDeltas where
  agent_weights : List (String × ℚ) := []
  risk : List (String × ℚ) := []
  strategy_bias : List (String × String) := []
  guardrails : List (String × String) := []
  asset_biases : List (String × ℚ) := []
deriving DecidableEq

/-- Class `LearningResponse` of src/learning_agent/models.py.  The
`reasoning` trail holds presentation-only formatted strings and is elided
(left empty) by this embedding; no claim depends on it. -/
structure LearningResponse where
  learning_state : String
  learning_mode : Option String := none
  confidence_score : ℚ := 0
  policy_deltas : PolicyDeltas := {}
  reasoning : List String := []
deriving DecidableEq

/-- Python dict lookup on an association list (first binding wins, as keys
are unique in a dict). -/
def alistLookup {α : Type} : List (String × α) → String → Option α
  | [], _ => none
  | (k, v) :: rest, key => if k = key then some v else alistLookup rest key

/-- Function `_calculate_trade_pnl_pct` of src/learning_agent/logic.py
lines 27-52: prefer the trade's own `pnl_pct`; otherwise derive it from the
entry price and the last known close, signed by side. -/
def _calculate_trade_pnl_pct (trade : Trade) (price_history : List PricePoint) : ℚ :=
  match trade.pnl_pct with
  | some p => p
  | none =>
    match price_history.getLast? with
    | none => 0
    | some lastPoint =>
      let entry_price := trade.price
      let exit_price := lastPoint.close
      if trade.side = "buy" then (exit_price - entry_price) / entry_price
      else if trade.side = "sell" then (entry_price - exit_price) / entry_price
      else 0

/-- `np.cumprod` with running product `acc`: the list of partial products. -/
def cumprodAux (acc : ℚ) : List ℚ → List ℚ
  | [] => []
  | x :: xs => (acc * x) :: cumprodAux (acc * x) xs

/-- `np.maximum.accumulate` continued with running maximum `m`. -/
def runningMaxAux (m : ℚ) : List ℚ → List ℚ
  | [] => []
  | x :: xs => max m x :: runningMaxAux (max m x) xs

/-- `np.maximum.accumulate`: the list of running maxima. -/
def maximumAccumulate : List ℚ → List ℚ
  | [] => []
  | x :: xs => x :: runningMaxAux x xs

/-- `np.min` of a list (the empty case is unreachable at every use). -/
def listMin : List ℚ → ℚ
  | [] => 0
  | x :: xs => xs.foldl min x

/-- `np.max`-style maximum of a list (empty case unreachable at every use). -/
def listMax : List ℚ → ℚ
  | [] => 0
  | x :: xs => xs.foldl max x

/-- The equity curve of src/learning_agent/logic.py line 67:
`np.insert(np.cumprod([1 + p for p in pnl_pcts]), 0, 1.0)` — the cumulative
product of `(1 + p)` with an initial capital of 1.0 prepended. -/
def equityCurve (pnl_pcts : List ℚ) : List ℚ :=
  1 :: cumprodAux 1 (pnl_pcts.map (fun p => 1 + p))

/-- The max-drawdown computation of src/learning_agent/logic.py lines 62-71:
drawdown at each step is `(equity - peak) / peak` against the running peak;
the result is the absolute value of the most negative drawdown past the
prepended initial capital. -/
def maxDrawdownOfPnls (pnl_pcts : List ℚ) : ℚ :=
  if pnl_pcts = [] then 0
  else
    let equity_curve := equityCurve pnl_pcts
    let peak := maximumAccumulate equity_curve
    let drawdown := List.zipWith (fun e pk => (e - pk) / pk) equity_curve peak
    if 1 < drawdown.length then |listMin (drawdown.drop 1)| else 0

/-- Performance summary returned by `_calculate_asset_performance`
(src/learning_agent/logic.py lines 76-81). -/
structure AssetPerformance where
  win_rate : ℚ
  max_drawdown : ℚ
  volatility : ℚ
  trade_count : Nat
deriving DecidableEq

/-- Function `_calculate_asset_performance` of src/learning_agent/logic.py
lines 55-81.  `std` stands for `np.std` (an external numeric capability);
the code only consults it when there are at least two pnl values. -/
def _calculate_asset_performance (std : List ℚ → ℚ) (trades : List Trade)
    (pnl_pcts : List ℚ) : AssetPerformance :=
  { win_rate :=
      if pnl_pcts = [] then 0
      else ((pnl_pcts.filter (fun p => decide (0 < p))).length : ℚ) / (pnl_pcts.length : ℚ)
    max_drawdown := maxDrawdownOfPnls pnl_pcts
    volatility := if 1 < pnl_pcts.length then std pnl_pcts else 0
    trade_count := trades.length }

/-- One step of a stable descending insertion sort by `key`: `x` goes after
every already-placed element whose key is at least `key x`, so equal keys
keep their original order, matching Python's stable `sort(reverse=True)`. -/
def insertDescBy {α : Type} (key : α → String) (x : α) : List α → List α
  | [] => [x]
  | y :: ys => if key x ≤ key y then y :: insertDescBy key x ys else x :: y :: ys

/-- Stable descending sort by `key` (Python `sort(key=..., reverse=True)`). -/
def sortDescBy {α : Type} (key : α → String) (l : List α) : List α :=
  l.foldl (fun acc x => insertDescBy key x acc) []

/-- Truthiness of the `execution_result` dict: a Python dict is truthy iff
it is non-empty, i.e. iff at least one of the modelled keys is present. -/
def executionResultNonempty (er : ExecutionResult) : Bool :=
  er.status.isSome || er.pnl_pct.isSome || er.entry_price.isSome || er.exit_price.isSome

/-- The partial overwrite of src/learning_agent/logic.py lines 100-107: only
the fields present in `execution_result` replace the trade's. -/
def applyExecutionResult (er : ExecutionResult) (t : Trade) : Trade :=
  { t with
    pnl_pct := match er.pnl_pct with | some p => some p | none => t.pnl_pct
    entry_price := match er.entry_price with | some p => some p | none => t.entry_price
    exit_price := match er.exit_price with | some p => some p | none => t.exit_price }

/-- The pre-processing of src/learning_agent/logic.py lines 92-109: when a
truthy `execution_result` has status "executed" and the trade history is
non-empty, the history is sorted in place descending by `executed_at` and
the most recent trade absorbs the execution result's fields. -/
def preprocessRequest (request : LearningRequest) : LearningRequest :=
  match request.execution_result with
  | none => request
  | some er =>
    if executionResultNonempty er ∧ request.trade_history ≠ [] then
      if er.status = some "executed" then
        match sortDescBy (fun t => t.executed_at) request.trade_history with
        | [] => { request with trade_history := [] }
        | latest :: rest =>
          { request with trade_history := applyExecutionResult er latest :: rest }
      else request
    else request

/-- One step of the `defaultdict(list)` grouping of src/learning_agent/logic.py
lines 117-119: append the trade to its asset's group, creating the group at
the end on first reference (dict insertion order). -/
def addToGroup (groups : List (String × List Trade)) (t : Trade) : List (String × List Trade) :=
  match groups with
  | [] => [(t.asset_id, [t])]
  | (k, ts) :: rest =>
    if k = t.asset_id then (k, ts ++ [t]) :: rest else (k, ts) :: addToGroup rest t

/-- `trades_by_asset` of src/learning_agent/logic.py lines 117-119. -/
def groupByAsset (trades : List Trade) : List (String × List Trade) :=
  trades.foldl addToGroup []

/-- The per-asset pnl list of src/learning_agent/logic.py lines 130-132. -/
def assetPnls (price_history : List (String × List PricePoint)) (asset_id : String)
    (trades : List Trade) : List ℚ :=
  trades.map (fun t => _calculate_trade_pnl_pct t ((alistLookup price_history asset_id).getD []))

/-- The recent window of src/learning_agent/logic.py lines 158-161: the
trade/pnl pairs sorted descending by execution time, truncated to the
10 most recent. -/
def recentPairs (trades : List Trade) (pnl_pcts : List ℚ) : List (Trade × ℚ) :=
  (sortDescBy (fun tp => tp.1.executed_at) (trades.zip pnl_pcts)).take RECENT_TRADES_WINDOW

/-- The consecutive-loss scan of src/learning_agent/logic.py lines 163-173,
carrying the current run length `count`: a loss extends the run and trips
the flag at `CONSECUTIVE_LOSS_THRESHOLD`; a non-loss resets it. -/
def consecLossGo (count : Nat) : List ℚ → Bool
  | [] => false
  | p :: ps =>
    if p < 0 then
      if CONSECUTIVE_LOSS_THRESHOLD ≤ count + 1 then true else consecLossGo (count + 1) ps
    else consecLossGo 0 ps

/-- Whether the scan of src/learning_agent/logic.py lines 163-173 flags the
recent pnl list. -/
def consecutiveLossFlag (recent_pnl : List ℚ) : Bool :=
  consecLossGo 0 recent_pnl

/-- The drawdown-clustering checks of src/learning_agent/logic.py
lines 157-179 for one asset: consecutive losses in the recent window, or a
recomputed recent max drawdown above the threshold. -/
def assetRiskFlagged (std : List ℚ → ℚ) (price_history : List (String × List PricePoint))
    (asset_id : String) (trades : List Trade) : Bool :=
  let pnl_pcts := assetPnls price_history asset_id trades
  let pairs := recentPairs trades pnl_pcts
  let recent_trades := pairs.map Prod.fst
  let recent_pnl := pairs.map Prod.snd
  consecutiveLossFlag recent_pnl ||
    decide (MAX_DRAWDOWN_THRESHOLD <
      (_calculate_asset_performance std recent_trades recent_pnl).max_drawdown)

/-- The mutable state threaded through the per-asset loop of
src/learning_agent/logic.py lines 121-179. -/
structure CycleAcc where
  warmup : Nat
  asset_biases : List (String × ℚ)
  riskFlag : Bool
deriving DecidableEq

/-- The performance score of src/learning_agent/logic.py lines 137-144:
the three normalized metrics combined with the fixed weights. -/
def performanceScore (std : List ℚ → ℚ) (price_history : List (String × List PricePoint))
    (asset_id : String) (trades : List Trade) : ℚ :=
  let pnl_pcts := assetPnls price_history asset_id trades
  let perf := _calculate_asset_performance std trades pnl_pcts
  let wr_score := perf.win_rate
  let mdd_score := 1 - min 1 (perf.max_drawdown / MAX_ACCEPTABLE_DRAWDOWN)
  let vol_score := 1 - min 1 (perf.volatility / MAX_ACCEPTABLE_VOLATILITY)
  WEIGHT_WIN_RATE * wr_score + WEIGHT_MAX_DRAWDOWN * mdd_score + WEIGHT_VOLATILITY * vol_score

/-- The threshold bias decision of src/learning_agent/logic.py
lines 146-152. -/
def assetBiasDelta (std : List ℚ → ℚ) (price_history : List (String × List PricePoint))
    (asset_id : String) (trades : List Trade) : ℚ :=
  let performance_score := performanceScore std price_history asset_id trades
  if PERFORMANCE_UPPER_THRESHOLD < performance_score then BIAS_ADJUSTMENT_INCREMENT
  else if performance_score < PERFORMANCE_LOWER_THRESHOLD then -BIAS_ADJUSTMENT_INCREMENT
  else 0

/-- The loop body of src/learning_agent/logic.py lines 124-179 for one
asset group: warmup skip, scoring against the three normalized metrics,
threshold bias decision, and drawdown-clustering detection. -/
def processAsset (std : List ℚ → ℚ) (price_history : List (String × List PricePoint))
    (acc : CycleAcc) (asset_id : String) (trades : List Trade) : CycleAcc :=
  if trades.length < ASSET_MIN_TRADES_WARMUP then
    { acc with warmup := acc.warmup + 1 }
  else
    let bias_delta := assetBiasDelta std price_history asset_id trades
    let acc' :=
      if bias_delta ≠ 0 then
        { acc with asset_biases := acc.asset_biases ++ [(asset_id, bias_delta)] }
      else acc
    { acc' with riskFlag := acc'.riskFlag || assetRiskFlagged std price_history asset_id trades }

/-- Function `run_learning_cycle` of src/learning_agent/logic.py lines 83-192.
`std` stands for `np.std`.  The function mutates its argument (the
pre-processing sorts and rewrites `request.trade_history` in place), so the
embedding returns the response together with the final request state. -/
def run_learning_cycle (std : List ℚ → ℚ) (request : LearningRequest) :
    LearningResponse × LearningRequest :=
  let request' := preprocessRequest request
  if request'.trade_history = [] then
    ({ learning_state := "insufficient_data" }, request')
  else
    let groups := groupByAsset request'.trade_history
    let acc := groups.foldl
      (fun a g => processAsset std request'.price_history a g.1 g.2)
      { warmup := 0, asset_biases := [], riskFlag := false }
    let risk : List (String × ℚ) :=
      if acc.riskFlag then [("risk_per_trade", RISK_PER_TRADE_ADJUSTMENT)] else []
    let state := if acc.warmup = groups.length then "warmup" else "success"
    ({ learning_state := state
       policy_deltas := { risk := risk, asset_biases := acc.asset_biases } }, request')

end Logic

namespace PerfAnalysis

/-- Class `Trade` of src/learning_agent/learning_pipeline/performance_analysis.py:
its constructor upper-cases the side, see `mkTrade`. -/
structure Trade where
  entry_price : ℚ
  exit_price : ℚ
  side : String
deriving DecidableEq

/-- The `Trade.__init__` of performance_analysis.py: `side` is stored
upper-cased. -/
def mkTrade (entry_price exit_price : ℚ) (side : String) : Trade :=
  ⟨entry_price, exit_price, side.toUpper⟩

/-- Method `Trade.calculate_pnl_pct` of performance_analysis.py lines 19-25. -/
def Trade.calculate_pnl_pct (t : Trade) : ℚ :=
  if t.side = "LONG" then (t.exit_price - t.entry_price) / t.entry_price
  else if t.side = "SHORT" then (t.entry_price - t.exit_price) / t.entry_price
  else 0

/-- The `self.pnl_pcts` list computed by `PerformanceAnalyzer.__init__`. -/
def pnlPcts (trades : List Trade) : List ℚ :=
  trades.map Trade.calculate_pnl_pct

/-- The value of `calculate_profit_factor`: a Python float that is either a
finite ratio or `float('inf')`. -/
inductive ProfitFactor where
  | val (q : ℚ)
  | inf
deriving DecidableEq

/-- Method `PerformanceAnalyzer.calculate_profit_factor` of
performance_analysis.py lines 47-61: gross positive pnl over the absolute
gross negative pnl; `inf` when the gross loss is zero; 0 for no trades. -/
def calculate_profit_factor (trades : List Trade) : ProfitFactor :=
  let pnl_pcts := pnlPcts trades
  if pnl_pcts = [] then .val 0
  else
    let gross_profit := (pnl_pcts.filter (fun p => decide (0 < p))).sum
    let gross_loss := |(pnl_pcts.filter (fun p => decide (p < 0))).sum|
    if gross_loss = 0 then .inf else .val (gross_profit / gross_loss)

/-- `np.cumsum`-style partial sums with running sum `acc`. -/
def cumsumAux (acc : ℚ) : List ℚ → List ℚ
  | [] => []
  | x :: xs => (acc + x) :: cumsumAux (acc + x) xs

/-- The equity curve of performance_analysis.py line 72:
`[1.0] + [1.0 + sum(pnl_pcts[:i+1]) for i, _ in enumerate(pnl_pcts)]` —
additive, built from cumulative sums, not from a cumulative product. -/
def additiveEquityCurve (pnl_pcts : List ℚ) : List ℚ :=
  1 :: (cumsumAux 0 pnl_pcts).map (fun s => 1 + s)

/-- The loop of performance_analysis.py lines 74-82 over the equity curve,
carrying the running `peak` and the running `max_drawdown`. -/
def ddLoop (peak max_drawdown : ℚ) : List ℚ → ℚ
  | [] => max_drawdown
  | value :: rest =>
    let peak' := if peak < value then value else peak
    let drawdown := (peak' - value) / peak'
    ddLoop peak' (if max_drawdown < drawdown then drawdown else max_drawdown) rest

/-- Method `PerformanceAnalyzer.calculate_max_drawdown` of
performance_analysis.py lines 63-84, reported as a percentage: the loop
starts with `peak = equity_curve[0]` and runs over the whole curve. -/
def calculate_max_drawdown (trades : List Trade) : ℚ :=
  let pnl_pcts := pnlPcts trades
  if pnl_pcts = [] then 0
  else
    let equity_curve := additiveEquityCurve pnl_pcts
    ddLoop (equity_curve.headD 0) 0 equity_curve * 100

end PerfAnalysis

namespace Regime

/-- Class `MarketRegimeResponse` of src/learning_agent/models.py. -/
structure MarketRegimeResponse where
  regime : String
  confidence_score : ℚ
  explanation : String
deriving DecidableEq

/-- Function `classify_market_regime` of src/learning_agent/market_regime.py
lines 89-129.  `deep` abstracts lines 93-129 — the pandas / pandas_ta
indicator path, an external numeric capability the spec scopes out — and is
consulted only once the series has at least 200 points; the guard of
lines 90-91 is embedded literally. -/
def classify_market_regime (deep : List Logic.PricePoint → MarketRegimeResponse)
    (price_history : List Logic.PricePoint) : MarketRegimeResponse :=
  if price_history.length < 200 then
    { regime := "undefined", confidence_score := 0, explanation := "Insufficient data." }
  else deep price_history

end Regime

namespace Spec

/-- Modelled from the spec: the per-asset bias triple of §3 and §4.3
(`AssetBias`); the bias-store service holding it (the FastAPI variant of
`learning_agent.main` with its in-memory `BIAS_STATE`) is not among the
sources — only src/tests/test_main.py exercises it. -/
structure AssetBias where
  bull_bias : ℚ := 0
  bear_bias : ℚ := 0
  vol_bias : ℚ := 0
deriving DecidableEq

/-- Modelled from the spec: the clamp of §4.3, each component kept in
[-1.0, 1.0]. -/
def clampBias (x : ℚ) : ℚ := max (-1) (min 1 x)

/-- Modelled from the spec: the update operation `apply_bias_delta` of §4.3
and §6 — add the delta triple to the current value and clamp each component
independently to [-1.0, 1.0]; its implementation is not among the sources. -/
def apply_bias_delta (current delta : AssetBias) : AssetBias :=
  { bull_bias := clampBias (current.bull_bias + delta.bull_bias)
    bear_bias := clampBias (current.bear_bias + delta.bear_bias)
    vol_bias := clampBias (current.vol_bias + delta.vol_bias) }

/-- Every component of the bias triple lies in [-1.0, 1.0]. -/
def biasInRange (b : AssetBias) : Prop :=
  (-1 ≤ b.bull_bias ∧ b.bull_bias ≤ 1) ∧
    (-1 ≤ b.bear_bias ∧ b.bear_bias ≤ 1) ∧
    (-1 ≤ b.vol_bias ∧ b.vol_bias ≤ 1)

instance (b : AssetBias) : Decidable (biasInRange b) := by
  unfold biasInRange; infer_instance

/-- Clamp to [0, 1], as §4.4 step 5 requires for the volatility score and
the final score. -/
def clamp01 (x : ℚ) : ℚ := max 0 (min 1 x)

/-- Modelled from the spec: the hybrid scoring of §4.4 step 5 — normalize
win-rate (direct), drawdown (1 − min(1, drawdown/0.20)) and volatility
(1 − min(1, volatility/0.10) plus the asset's vol_bias, re-clamped to
[0,1]); weight them 0.50/0.35/0.15 into a base score; add bull_bias when
the base score exceeds 0.5, else subtract bear_bias; clamp to [0,1].  The
bias-blended variant of the learning cycle is not among the sources. -/
def hybridScore (bias : AssetBias) (perf : Logic.AssetPerformance) : ℚ :=
  let wr_score := perf.win_rate
  let mdd_score := 1 - min 1 (perf.max_drawdown / Logic.MAX_ACCEPTABLE_DRAWDOWN)
  let vol_score := clamp01 (1 - min 1 (perf.volatility / Logic.MAX_ACCEPTABLE_VOLATILITY) + bias.vol_bias)
  let base := Logic.WEIGHT_WIN_RATE * wr_score + Logic.WEIGHT_MAX_DRAWDOWN * mdd_score +
    Logic.WEIGHT_VOLATILITY * vol_score
  let directional := if 1 / 2 < base then base + bias.bull_bias else base - bias.bear_bias
  clamp01 directional

/-- De-duplication by trade id keeping the first occurrence, with `seen`
the ids already kept. -/
def dedupeByIdAux (seen : List String) : List Logic.Trade → List Logic.Trade
  | [] => []
  | t :: ts =>
    if t.trade_id ∈ seen then dedupeByIdAux seen ts
    else t :: dedupeByIdAux (t.trade_id :: seen) ts

/-- De-duplication by trade id keeping the first occurrence. -/
def dedupeById (trades : List Logic.Trade) : List Logic.Trade :=
  dedupeByIdAux [] trades

/-- The distinct asset ids referenced by a trade list (no property settled
here depends on which duplicate occurrence the de-duplication keeps). -/
def distinctAssets (trades : List Logic.Trade) : List String :=
  (trades.map (fun t => t.asset_id)).dedup

/-- Modelled from the spec: the merge of §4.4 step 2 and §9 — supplied
trades merged with the trades fetched per distinct referenced asset,
de-duplicated through an explicit map keyed by trade id with the supplied
trade taking precedence.  The historical-fetch-and-merge variant of the
learning cycle is not among the sources (src only has the fetch client
`db_agent_client.fetch_trade_history`). -/
def mergedTrades (fetch : String → List Logic.Trade) (supplied : List Logic.Trade) :
    List Logic.Trade :=
  dedupeById (supplied ++ (distinctAssets supplied).flatMap fetch)

/-- Modelled from the spec: the hybrid score a cycle gives one eligible
asset — `hybridScore` over the asset's Bias Store entry and its performance
summary computed by the source's `_calculate_asset_performance`. -/
def cycleAssetScore (std : List ℚ → ℚ) (biasOf : String → AssetBias)
    (price_history : List (String × List Logic.PricePoint)) (asset_id : String)
    (trades : List Logic.Trade) : ℚ :=
  hybridScore (biasOf asset_id)
    (Logic._calculate_asset_performance std trades (Logic.assetPnls price_history asset_id trades))

/-- Modelled from the spec: the ±0.05 threshold decision of §4.4 step 6
applied to the hybrid score. -/
def assetBiasDeltaSpec (std : List ℚ → ℚ) (biasOf : String → AssetBias)
    (price_history : List (String × List Logic.PricePoint)) (asset_id : String)
    (trades : List Logic.Trade) : ℚ :=
  let score := cycleAssetScore std biasOf price_history asset_id trades
  if Logic.PERFORMANCE_UPPER_THRESHOLD < score then Logic.BIAS_ADJUSTMENT_INCREMENT
  else if score < Logic.PERFORMANCE_LOWER_THRESHOLD then -Logic.BIAS_ADJUSTMENT_INCREMENT
  else 0

/-- Modelled from the spec: the per-asset step of §4.4 steps 4-7 with the
bias blending of step 5 — warmup skip below 10 trades, hybrid scoring via
`hybridScore` against the Bias Store snapshot `biasOf`, the ±0.05 threshold
decision of step 6, and the drawdown-clustering detection of step 7. -/
def processAssetSpec (std : List ℚ → ℚ) (biasOf : String → AssetBias)
    (price_history : List (String × List Logic.PricePoint)) (acc : Logic.CycleAcc)
    (asset_id : String) (trades : List Logic.Trade) : Logic.CycleAcc :=
  if trades.length < Logic.ASSET_MIN_TRADES_WARMUP then
    { acc with warmup := acc.warmup + 1 }
  else
    let bias_delta := assetBiasDeltaSpec std biasOf price_history asset_id trades
    let acc' :=
      if bias_delta ≠ 0 then
        { acc with asset_biases := acc.asset_biases ++ [(asset_id, bias_delta)] }
      else acc
    { acc' with
      riskFlag := acc'.riskFlag || Logic.assetRiskFlagged std price_history asset_id trades }

/-- Modelled from the spec: the full learning-cycle orchestrator of §4.4 —
pre-processing (step 1, shared with the source's `preprocessRequest`),
historical merge (step 2), the `insufficient_data` terminal state (step 3),
grouping (step 4), bias-blended scoring and clustering (steps 5-7 via
`processAssetSpec`), the single global risk delta (step 8) and the overall
state (step 9). -/
def run_learning_cycle_spec (std : List ℚ → ℚ) (fetch : String → List Logic.Trade)
    (biasOf : String → AssetBias) (request : Logic.LearningRequest) :
    Logic.LearningResponse :=
  let request' := Logic.preprocessRequest request
  let merged := mergedTrades fetch request'.trade_history
  if merged = [] then { learning_state := "insufficient_data" }
  else
    let groups := Logic.groupByAsset merged
    let acc := groups.foldl
      (fun a g => processAssetSpec std biasOf request'.price_history a g.1 g.2)
      { warmup := 0, asset_biases := [], riskFlag := false }
    let risk : List (String × ℚ) :=
      if acc.riskFlag then [("risk_per_trade", Logic.RISK_PER_TRADE_ADJUSTMENT)] else []
    let state := if acc.warmup = groups.length then "warmup" else "success"
    { learning_state := state
      policy_deltas := { risk := risk, asset_biases := acc.asset_biases } }

end Spec

/-- Reference definition following the spec's words (§4.2): over a given
equity curve, the drawdown at each step is (running peak − value) / running
peak, and the maximum is reported.  Used to compare the two source
implementations of max drawdown, which differ in how they build the curve. -/
def specCurveMdd (curve : List ℚ) : ℚ :=
  Logic.listMax (List.zipWith (fun pk v => (pk - v) / pk) (Logic.maximumAccumulate curve) curve)

/-- Claim-side predicate: the first `n` entries exist and are all losses. -/
def prefixNeg (n : Nat) (l : List ℚ) : Prop :=
  n ≤ l.length ∧ ∀ x ∈ l.take n, x < 0

/-- Claim-side predicate: the list contains a run of 3 or more consecutive
losses. -/
def hasLossRun3 (l : List ℚ) : Prop :=
  ∃ pre mid post : List ℚ, l = pre ++ mid ++ post ∧ 3 ≤ mid.length ∧ ∀ x ∈ mid, x < 0

/-- Helper for reasoning about drawdowns: the per-step
`(running peak − value) / running peak` list over a curve continued from
running peak `m`. -/
def posDrawdowns (m : ℚ) : List ℚ → List ℚ
  | [] => []
  | x :: xs => (max m x - x) / max m x :: posDrawdowns (max m x) xs

/-- A constant stand-in for `np.std` used by concrete witnesses. -/
def zeroStd : List ℚ → ℚ := fun _ => 0

/-- An all-zero Bias Store snapshot used by concrete witnesses. -/
def zeroBiasStore : String → Spec.AssetBias := fun _ => {}

/-- An empty historical-trade fetch used by concrete witnesses. -/
def emptyFetch : String → List Logic.Trade := fun _ => []

/-- A concrete current policy used by concrete witness requests. -/
def examplePolicy : Logic.CurrentPolicy :=
  { agent_weights := []
    risk := { risk_per_trade := 1 / 100, max_position_pct := 1 / 10, stop_loss_pct := 5 / 100 }
    strategy_bias := { preferred_regime := "any" } }

/-- A concrete trade constructor used by concrete witness requests. -/
def exampleTrade (id asset time : String) (pnl : Option ℚ) : Logic.Trade :=
  { trade_id := id
    account_id := "acc-001"
    asset_id := asset
    symbol := asset
    side := "buy"
    quantity := 1
    price := 100
    executed_at := time
    pnl_pct := pnl }

/-- A concrete request whose only asset has a single trade (a warmup asset). -/
def exampleWarmupRequest : Logic.LearningRequest :=
  { learning_mode := "test"
    window_size := 10
    trade_history := [exampleTrade "T1" "A" "2026-01-01T00:00:00Z" (some (2 / 100))]
    price_history := []
    current_policy := examplePolicy }

/-- A concrete executed execution result used by the mutation witness. -/
def exampleExecResult : Logic.ExecutionResult :=
  { status := some "executed", pnl_pct := some (55 / 1000) }

/-- A concrete request whose trade history is out of timestamp order and
which carries an executed execution result, so pre-processing visibly
rewrites it. -/
def exampleMutableRequest : Logic.LearningRequest :=
  { learning_mode := "test"
    window_size := 10
    trade_history :=
      [exampleTrade "T1" "A" "2026-01-01T00:00:00Z" none,
        exampleTrade "T2" "A" "2026-01-02T00:00:00Z" none]
    price_history := []
    current_policy := examplePolicy
    execution_result := some exampleExecResult }

/-- A concrete scorer standing in for the indicator-dependent path of
`classify_market_regime`, used by the short-series witness. -/
def exampleDeepClassifier : List Logic.PricePoint → Regime.MarketRegimeResponse :=
  fun _ => { regime := "uptrend", confidence_score := 1, explanation := "scored" }

/-- Ten copies of one profitable trade: an eligible (non-warmup) group. -/
def exampleTenTrades : List Logic.Trade :=
  List.replicate 10 (exampleTrade "T1" "BTC-USD" "2026-01-01T00:00:00Z" (some (2 / 100)))

theorem clampBias_mem_range (x : ℚ) : -1 ≤ Spec.clampBias x ∧ Spec.clampBias x ≤ 1 :=
  ⟨le_max_left _ _, max_le (by norm_num) (min_le_left _ _)⟩

theorem apply_bias_delta_in_range (c d : Spec.AssetBias) :
    Spec.biasInRange (Spec.apply_bias_delta c d) :=
  ⟨clampBias_mem_range _, clampBias_mem_range _, clampBias_mem_range _⟩

theorem foldl_bias_in_range (ds : List Spec.AssetBias) (b : Spec.AssetBias)
    (hb : Spec.biasInRange b) : Spec.biasInRange (ds.foldl Spec.apply_bias_delta b) := by
  induction ds generalizing b with
  | nil => exact hb
  | cons d ds ih => exact ih _ (apply_bias_delta_in_range b d)

/-- Claim C8: after any finite sequence of `apply_bias_delta` calls starting
from the default (0,0,0) state, every component (bull_bias, bear_bias,
vol_bias) of the bias triple stays within [-1.0, 1.0]; and each update adds
the delta triple to the current value and clamps each component
independently to [-1.0, 1.0]. -/
theorem bias_components_always_clamped (deltas : List Spec.AssetBias) :
    Spec.biasInRange (deltas.foldl Spec.apply_bias_delta {}) ∧
      ∀ current delta : Spec.AssetBias,
        Spec.apply_bias_delta current delta =
          { bull_bias := max (-1) (min 1 (current.bull_bias + delta.bull_bias))
            bear_bias := max (-1) (min 1 (current.bear_bias + delta.bear_bias))
            vol_bias := max (-1) (min 1 (current.vol_bias + delta.vol_bias)) } :=
  ⟨foldl_bias_in_range deltas {} (by decide), fun _ _ => rfl⟩

/-- Claim C9: a price series shorter than 200 points always yields regime
`undefined` with confidence 0.0 and explanation "Insufficient data.",
whatever the indicator-dependent path would have computed. -/
theorem short_series_yields_undefined
    (deep : List Logic.PricePoint → Regime.MarketRegimeResponse)
    (price_history : List Logic.PricePoint) (h : price_history.length < 200) :
    Regime.classify_market_regime deep price_history =
      { regime := "undefined", confidence_score := 0, explanation := "Insufficient data." } := by
  unfold Regime.classify_market_regime
  rw [if_pos h]

/-- Witness for C9: the empty series under a non-trivial deep scorer. -/
theorem short_series_yields_undefined_witness :
    Regime.classify_market_regime exampleDeepClassifier [] =
      { regime := "undefined", confidence_score := 0, explanation := "Insufficient data." } :=
  short_series_yields_undefined exampleDeepClassifier [] (by decide)

/-- Counterexample to claim C5 as stated: on a single zero-pnl trade
(`Trade(100, 100, 'LONG')`) the profit factor is `inf` though no trade has
positive pnl, and on a single losing trade (`Trade(100, 90, 'LONG')`) it
is 0 though the trade list is non-empty. -/
theorem profit_factor_claim_counterexample :
    (PerfAnalysis.calculate_profit_factor [⟨100, 100, "LONG"⟩] =
        PerfAnalysis.ProfitFactor.inf ∧
      ¬ 0 < PerfAnalysis.Trade.calculate_pnl_pct ⟨100, 100, "LONG"⟩) ∧
      (PerfAnalysis.calculate_profit_factor [⟨100, 90, "LONG"⟩] =
          PerfAnalysis.ProfitFactor.val 0 ∧
        ([⟨100, 90, "LONG"⟩] : List PerfAnalysis.Trade) ≠ []) := by
  refine ⟨⟨?_, ?_⟩, ?_, ?_⟩ <;>
    norm_num [PerfAnalysis.calculate_profit_factor, PerfAnalysis.pnlPcts,
      PerfAnalysis.Trade.calculate_pnl_pct]

/-- Claim C5 amended: `calculate_profit_factor` returns +infinity iff the
trade list is non-empty and the gross negative pnl is zero (whether or not
any trade has positive pnl), and returns 0 iff the trade list is empty or
the gross positive pnl is zero while the gross negative pnl is nonzero. -/
theorem profit_factor_amended (trades : List PerfAnalysis.Trade) :
    (PerfAnalysis.calculate_profit_factor trades = PerfAnalysis.ProfitFactor.inf ↔
      (trades ≠ [] ∧
        |((PerfAnalysis.pnlPcts trades).filter (fun p => decide (p < 0))).sum| = 0)) ∧
      (PerfAnalysis.calculate_profit_factor trades = PerfAnalysis.ProfitFactor.val 0 ↔
        (trades = [] ∨
          (((PerfAnalysis.pnlPcts trades).filter (fun p => decide (0 < p))).sum = 0 ∧
            |((PerfAnalysis.pnlPcts trades).filter (fun p => decide (p < 0))).sum| ≠ 0))) := by
  unfold PerfAnalysis.calculate_profit_factor
  by_cases h : PerfAnalysis.pnlPcts trades = []
  · have ht : trades = [] := List.map_eq_nil_iff.mp h
    subst ht
    simp [PerfAnalysis.pnlPcts]
  · have ht : trades ≠ [] := fun hh => h (by simp [PerfAnalysis.pnlPcts, hh])
    rw [if_neg h]
    by_cases hg : |((PerfAnalysis.pnlPcts trades).filter (fun p => decide (p < 0))).sum| = 0
    · rw [if_pos hg]
      simp [ht, hg]
    · rw [if_neg hg]
      refine ⟨by simp [hg], ?_⟩
      constructor
      · intro hv
        have hq : ((PerfAnalysis.pnlPcts trades).filter (fun p => decide (0 < p))).sum /
            |((PerfAnalysis.pnlPcts trades).filter (fun p => decide (p < 0))).sum| = 0 := by
          injection hv
        rcases div_eq_zero_iff.mp hq with h0 | h0
        · exact Or.inr ⟨h0, hg⟩
        · exact absurd h0 hg
      · rintro (rfl | ⟨h0, _⟩)
        · exact absurd rfl ht
        · rw [h0, zero_div]

theorem foldl_max_le_iff (l : List ℚ) (b c : ℚ) :
    List.foldl max b l ≤ c ↔ b ≤ c ∧ ∀ x ∈ l, x ≤ c := by
  induction l generalizing b with
  | nil => simp
  | cons x xs ih =>
    simp only [List.foldl_cons, ih, max_le_iff, List.mem_cons]
    constructor
    · rintro ⟨⟨hb, hx⟩, hall⟩
      exact ⟨hb, fun y hy => hy.elim (fun e => e ▸ hx) (hall y)⟩
    · rintro ⟨hb, hall⟩
      exact ⟨⟨hb, hall x (Or.inl rfl)⟩, fun y hy => hall y (Or.inr hy)⟩

theorem le_foldl_max (l : List ℚ) (b : ℚ) : b ≤ List.foldl max b l := by
  induction l generalizing b with
  | nil => simp
  | cons x xs ih => exact le_trans (le_max_left _ _) (ih (max b x))

theorem foldl_max_zero_eq_zero_iff (l : List ℚ) (hnn : ∀ x ∈ l, 0 ≤ x) :
    List.foldl max 0 l = 0 ↔ ∀ x ∈ l, x = 0 := by
  constructor
  · intro h x hx
    have hle := (foldl_max_le_iff l 0 0).mp (le_of_eq h)
    exact le_antisymm (hle.2 x hx) (hnn x hx)
  · intro h
    refine le_antisymm ?_ (le_foldl_max l 0)
    exact (foldl_max_le_iff l 0 0).mpr ⟨le_refl 0, fun x hx => le_of_eq (h x hx)⟩

theorem posDrawdowns_nonneg (xs : List ℚ) (m : ℚ) (hm : 0 < m) :
    ∀ d ∈ posDrawdowns m xs, 0 ≤ d := by
  induction xs generalizing m with
  | nil => simp [posDrawdowns]
  | cons x xs ih =>
    have hmx : 0 < max m x := lt_of_lt_of_le hm (le_max_left _ _)
    intro d hd
    rcases (List.mem_cons).mp hd with rfl | hd
    · exact div_nonneg (sub_nonneg.mpr (le_max_right _ _)) (le_of_lt hmx)
    · exact ih (max m x) hmx d hd

theorem posDrawdowns_all_zero_iff (xs : List ℚ) (m : ℚ) (hm : 0 < m) :
    (∀ d ∈ posDrawdowns m xs, d = 0) ↔ List.Chain' (fun a b : ℚ => a ≤ b) (m :: xs) := by
  induction xs generalizing m with
  | nil => simp [posDrawdowns]
  | cons x xs ih =>
    have hmx : 0 < max m x := lt_of_lt_of_le hm (le_max_left _ _)
    rw [List.chain'_cons, posDrawdowns, List.forall_mem_cons]
    constructor
    · rintro ⟨h0, hrest⟩
      have hx : max m x = x := by
        rcases div_eq_zero_iff.mp h0 with h1 | h1
        · exact sub_eq_zero.mp h1
        · exact absurd h1 (ne_of_gt hmx)
      have hmlex : m ≤ x := by rw [← hx]; exact le_max_left m x
      rw [hx] at hrest
      exact ⟨hmlex, (ih x (lt_of_lt_of_le hm hmlex)).mp hrest⟩
    · rintro ⟨hmlex, hchain⟩
      have hx : max m x = x := max_eq_right hmlex
      rw [hx]
      refine ⟨by simp, ?_⟩
      exact (ih x (lt_of_lt_of_le hm hmlex)).mpr hchain

theorem zip_drawdowns_neg (xs : List ℚ) (m : ℚ) :
    List.zipWith (fun e pk => (e - pk) / pk) xs (Logic.runningMaxAux m xs) =
      (posDrawdowns m xs).map (fun d => -d) := by
  induction xs generalizing m with
  | nil => rfl
  | cons x xs ih =>
    simp only [Logic.runningMaxAux, List.zipWith_cons_cons, posDrawdowns, List.map_cons, ih]
    rw [← neg_div, neg_sub]

theorem zip_posDrawdowns (xs : List ℚ) (m : ℚ) :
    List.zipWith (fun pk v => (pk - v) / pk) (Logic.runningMaxAux m xs) xs =
      posDrawdowns m xs := by
  induction xs generalizing m with
  | nil => rfl
  | cons x xs ih =>
    simp only [Logic.runningMaxAux, List.zipWith_cons_cons, posDrawdowns, ih]

theorem foldl_min_neg (l : List ℚ) (a : ℚ) :
    List.foldl min (-a) (l.map (fun x => -x)) = -List.foldl max a l := by
  induction l generalizing a with
  | nil => rfl
  | cons x xs ih =>
    simp only [List.map_cons, List.foldl_cons, min_neg_neg]
    exact ih (max a x)

theorem listMin_map_neg (l : List ℚ) :
    Logic.listMin (l.map (fun x => -x)) = -Logic.listMax l := by
  cases l with
  | nil => simp [Logic.listMin, Logic.listMax]
  | cons x xs =>
    simp only [List.map_cons, Logic.listMin, Logic.listMax]
    exact foldl_min_neg xs x

theorem listMax_nonneg (l : List ℚ) (h : ∀ x ∈ l, 0 ≤ x) : 0 ≤ Logic.listMax l := by
  cases l with
  | nil => simp [Logic.listMax]
  | cons x xs => exact le_trans (h x (List.mem_cons_self x xs)) (le_foldl_max xs x)

theorem listMax_eq_foldl_zero (l : List ℚ) (h : ∀ x ∈ l, 0 ≤ x) :
    Logic.listMax l = List.foldl max 0 l := by
  cases l with
  | nil => rfl
  | cons x xs =>
    simp only [Logic.listMax, List.foldl_cons]
    rw [max_eq_right (h x (List.mem_cons_self x xs))]

theorem posDrawdowns_length (xs : List ℚ) (m : ℚ) :
    (posDrawdowns m xs).length = xs.length := by
  induction xs generalizing m with
  | nil => rfl
  | cons x xs ih => simp [posDrawdowns, ih]

theorem specCurveMdd_cons_one (cs : List ℚ) :
    specCurveMdd (1 :: cs) = List.foldl max 0 (posDrawdowns 1 cs) := by
  unfold specCurveMdd Logic.maximumAccumulate
  rw [List.zipWith_cons_cons, zip_posDrawdowns]
  norm_num [Logic.listMax]

theorem maxDrawdownOfPnls_eq_spec (pnl_pcts : List ℚ) :
    Logic.maxDrawdownOfPnls pnl_pcts = specCurveMdd (Logic.equityCurve pnl_pcts) := by
  rcases pnl_pcts with _ | ⟨p, ps⟩
  · norm_num [Logic.maxDrawdownOfPnls, Logic.equityCurve, Logic.cumprodAux, specCurveMdd,
      Logic.maximumAccumulate, Logic.listMax]
  · rw [Logic.maxDrawdownOfPnls, if_neg (by simp)]
    show (if 1 < (List.zipWith (fun e pk => (e - pk) / pk) (Logic.equityCurve (p :: ps))
        (Logic.maximumAccumulate (Logic.equityCurve (p :: ps)))).length then
        |Logic.listMin ((List.zipWith (fun e pk => (e - pk) / pk) (Logic.equityCurve (p :: ps))
          (Logic.maximumAccumulate (Logic.equityCurve (p :: ps)))).drop 1)| else 0) =
      specCurveMdd (Logic.equityCurve (p :: ps))
    have hcurve : Logic.equityCurve (p :: ps) =
        1 :: Logic.cumprodAux 1 ((p :: ps).map (fun q => 1 + q)) := rfl
    rw [hcurve, Logic.maximumAccumulate, List.zipWith_cons_cons, zip_drawdowns_neg,
      specCurveMdd_cons_one]
    have hnn := posDrawdowns_nonneg (Logic.cumprodAux 1 ((p :: ps).map (fun q => 1 + q))) 1
      (by norm_num)
    have hlen : 0 < (Logic.cumprodAux 1 ((p :: ps).map (fun q => 1 + q))).length := by
      simp [Logic.cumprodAux]
    rw [if_pos (by
      simp only [List.length_cons, List.length_map, posDrawdowns_length]
      omega)]
    have hdrop : ((1 - 1) / 1 ::
        (posDrawdowns 1 (Logic.cumprodAux 1 ((p :: ps).map (fun q => 1 + q)))).map
          (fun d => -d)).drop 1 =
        (posDrawdowns 1 (Logic.cumprodAux 1 ((p :: ps).map (fun q => 1 + q)))).map
          (fun d => -d) := rfl
    rw [hdrop, listMin_map_neg, abs_neg, abs_of_nonneg (listMax_nonneg _ hnn),
      listMax_eq_foldl_zero _ hnn]

theorem ite_lt_eq_max (m x : ℚ) : (if m < x then x else m) = max m x := by
  rcases le_or_lt x m with h | h
  · rw [if_neg (not_lt.mpr h), max_eq_left h]
  · rw [if_pos h, max_eq_right (le_of_lt h)]

theorem ddLoop_eq_foldl (xs : List ℚ) (m b : ℚ) :
    PerfAnalysis.ddLoop m b xs = List.foldl max b (posDrawdowns m xs) := by
  induction xs generalizing m b with
  | nil => rfl
  | cons x xs ih =>
    show PerfAnalysis.ddLoop (if m < x then x else m)
        (if b < (((if m < x then x else m) - x) / (if m < x then x else m)) then
          (((if m < x then x else m) - x) / (if m < x then x else m)) else b) xs =
      List.foldl max b ((max m x - x) / max m x :: posDrawdowns (max m x) xs)
    rw [ite_lt_eq_max, ite_lt_eq_max, List.foldl_cons, max_comm b _]
    exact ih (max m x) (max ((max m x - x) / max m x) b)

theorem calculate_max_drawdown_eq_spec (trades : List PerfAnalysis.Trade) :
    PerfAnalysis.calculate_max_drawdown trades =
      100 * specCurveMdd (PerfAnalysis.additiveEquityCurve (PerfAnalysis.pnlPcts trades)) := by
  unfold PerfAnalysis.calculate_max_drawdown
  by_cases h : PerfAnalysis.pnlPcts trades = []
  · rw [if_pos h, h]
    norm_num [PerfAnalysis.additiveEquityCurve, PerfAnalysis.cumsumAux, specCurveMdd,
      Logic.maximumAccumulate, Logic.listMax]
  · rw [if_neg h]
    show PerfAnalysis.ddLoop ((PerfAnalysis.additiveEquityCurve
        (PerfAnalysis.pnlPcts trades)).headD 0) 0
        (PerfAnalysis.additiveEquityCurve (PerfAnalysis.pnlPcts trades)) * 100 =
      100 * specCurveMdd (PerfAnalysis.additiveEquityCurve (PerfAnalysis.pnlPcts trades))
    have hcurve : PerfAnalysis.additiveEquityCurve (PerfAnalysis.pnlPcts trades) =
        1 :: (PerfAnalysis.cumsumAux 0 (PerfAnalysis.pnlPcts trades)).map (fun s => 1 + s) :=
      rfl
    rw [hcurve, List.headD_cons, specCurveMdd_cons_one]
    have hstep : PerfAnalysis.ddLoop 1 0
        (1 :: (PerfAnalysis.cumsumAux 0 (PerfAnalysis.pnlPcts trades)).map (fun s => 1 + s)) =
        PerfAnalysis.ddLoop 1 0
          ((PerfAnalysis.cumsumAux 0 (PerfAnalysis.pnlPcts trades)).map (fun s => 1 + s)) := by
      show PerfAnalysis.ddLoop (if (1:ℚ) < 1 then 1 else 1)
          (if (0:ℚ) < (((if (1:ℚ) < 1 then 1 else 1) - 1) / (if (1:ℚ) < 1 then 1 else 1)) then
            (((if (1:ℚ) < 1 then 1 else 1) - 1) / (if (1:ℚ) < 1 then 1 else 1)) else 0) _ =
        PerfAnalysis.ddLoop 1 0 _
      norm_num
    rw [hstep, ddLoop_eq_foldl, mul_comm]

/-- Counterexample to claim C6 as stated: on the pnl sequence
[0.10, 0.10, −0.10] (trades LONG 100→110, 100→110, 100→90) the standalone
analyzer reports 25/3 ≈ 8.33 while 100 times the orchestrator's internal
fraction is 10, because the standalone equity curve is additive
(1 + cumulative sum), not the cumulative product of (1 + pnl). -/
theorem mdd_scaling_counterexample :
    PerfAnalysis.pnlPcts [⟨100, 110, "LONG"⟩, ⟨100, 110, "LONG"⟩, ⟨100, 90, "LONG"⟩] =
        [1 / 10, 1 / 10, -(1 / 10)] ∧
      PerfAnalysis.calculate_max_drawdown
          [⟨100, 110, "LONG"⟩, ⟨100, 110, "LONG"⟩, ⟨100, 90, "LONG"⟩] ≠
        100 * Logic.maxDrawdownOfPnls [1 / 10, 1 / 10, -(1 / 10)] := by
  constructor
  · norm_num [PerfAnalysis.pnlPcts, PerfAnalysis.Trade.calculate_pnl_pct]
  · rw [Logic.maxDrawdownOfPnls, if_neg (by simp)]
    have h1 : PerfAnalysis.pnlPcts
        [⟨100, 110, "LONG"⟩, ⟨100, 110, "LONG"⟩, ⟨100, 90, "LONG"⟩] =
        [1 / 10, 1 / 10, -(1 / 10)] := by
      norm_num [PerfAnalysis.pnlPcts, PerfAnalysis.Trade.calculate_pnl_pct]
    unfold PerfAnalysis.calculate_max_drawdown
    rw [h1, if_neg (by simp)]
    norm_num [PerfAnalysis.additiveEquityCurve, PerfAnalysis.cumsumAux, PerfAnalysis.ddLoop,
      Logic.equityCurve, Logic.cumprodAux, Logic.maximumAccumulate, Logic.runningMaxAux,
      Logic.listMin, min_def, max_def, abs]

/-- Claim C6 amended: both computations start the equity curve at 1.0, take
drawdown at each step as (running peak − value)/running peak against the
running peak and report the maximum, and the standalone result is the
percentage (×100) of its curve's max-drawdown fraction; but the standalone
analyzer builds its curve additively, as 1 + cumulative sum of pnl, while
the orchestrator's internal version builds it as the cumulative product of
(1 + pnl), so the two agree (standalone = 100 × internal) only when the two
curves coincide, e.g. on pnl sequences of length at most 1. -/
theorem mdd_two_conventions_amended :
    (∀ trades : List PerfAnalysis.Trade,
        PerfAnalysis.calculate_max_drawdown trades =
          100 * specCurveMdd (PerfAnalysis.additiveEquityCurve (PerfAnalysis.pnlPcts trades))) ∧
      (∀ pnl_pcts : List ℚ,
        Logic.maxDrawdownOfPnls pnl_pcts = specCurveMdd (Logic.equityCurve pnl_pcts)) ∧
      (∀ t : PerfAnalysis.Trade,
        PerfAnalysis.calculate_max_drawdown [t] =
          100 * Logic.maxDrawdownOfPnls (PerfAnalysis.pnlPcts [t])) := by
  refine ⟨calculate_max_drawdown_eq_spec, maxDrawdownOfPnls_eq_spec, ?_⟩
  intro t
  rw [calculate_max_drawdown_eq_spec, maxDrawdownOfPnls_eq_spec]
  have : PerfAnalysis.additiveEquityCurve (PerfAnalysis.pnlPcts [t]) =
      Logic.equityCurve (PerfAnalysis.pnlPcts [t]) := by
    simp [PerfAnalysis.pnlPcts, PerfAnalysis.additiveEquityCurve, PerfAnalysis.cumsumAux,
      Logic.equityCurve, Logic.cumprodAux]
  rw [this]

theorem specCurveMdd_nonneg_zero_iff (cs : List ℚ) :
    0 ≤ specCurveMdd (1 :: cs) ∧
      (specCurveMdd (1 :: cs) = 0 ↔ List.Chain' (fun a b : ℚ => a ≤ b) (1 :: cs)) := by
  have hnn := posDrawdowns_nonneg cs 1 (by norm_num)
  rw [specCurveMdd_cons_one]
  refine ⟨le_foldl_max _ 0, ?_⟩
  rw [foldl_max_zero_eq_zero_iff _ hnn]
  exact posDrawdowns_all_zero_iff cs 1 (by norm_num)

/-- Claim C7: for every list of trades, both max-drawdown computations — the
orchestrator's fraction (logic.py) and the standalone analyzer's percentage
(performance_analysis.py) — are non-negative, and each is zero exactly when
its own equity curve (1.0 followed by cumulative products of 1 + pnl for
the orchestrator, 1.0 plus cumulative sums of pnl for the standalone
analyzer) is non-decreasing. -/
theorem max_drawdown_nonneg_and_zero_iff :
    (∀ pnl_pcts : List ℚ,
      0 ≤ Logic.maxDrawdownOfPnls pnl_pcts ∧
        (Logic.maxDrawdownOfPnls pnl_pcts = 0 ↔
          List.Chain' (fun a b : ℚ => a ≤ b) (Logic.equityCurve pnl_pcts))) ∧
      ∀ trades : List PerfAnalysis.Trade,
        0 ≤ PerfAnalysis.calculate_max_drawdown trades ∧
          (PerfAnalysis.calculate_max_drawdown trades = 0 ↔
            List.Chain' (fun a b : ℚ => a ≤ b)
              (PerfAnalysis.additiveEquityCurve (PerfAnalysis.pnlPcts trades))) := by
  constructor
  · intro pnl_pcts
    have hcurve : Logic.equityCurve pnl_pcts =
        1 :: Logic.cumprodAux 1 (pnl_pcts.map (fun q => 1 + q)) := rfl
    have h := specCurveMdd_nonneg_zero_iff (Logic.cumprodAux 1 (pnl_pcts.map (fun q => 1 + q)))
    rw [maxDrawdownOfPnls_eq_spec, hcurve]
    exact h
  · intro trades
    have hcurve : PerfAnalysis.additiveEquityCurve (PerfAnalysis.pnlPcts trades) =
        1 :: (PerfAnalysis.cumsumAux 0 (PerfAnalysis.pnlPcts trades)).map (fun s => 1 + s) :=
      rfl
    have h := specCurveMdd_nonneg_zero_iff
      ((PerfAnalysis.cumsumAux 0 (PerfAnalysis.pnlPcts trades)).map (fun s => 1 + s))
    rw [calculate_max_drawdown_eq_spec, hcurve]
    constructor
    · exact mul_nonneg (by norm_num) h.1
    · rw [mul_eq_zero]
      constructor
      · rintro (h100 | hz)
        · norm_num at h100
        · exact h.2.mp hz
      · intro hchain
        exact Or.inr (h.2.mpr hchain)

theorem insertDescBy_perm {α : Type} (key : α → String) (x : α) (l : List α) :
    (Logic.insertDescBy key x l).Perm (x :: l) := by
  induction l with
  | nil => exact List.Perm.refl _
  | cons y ys ih =>
    simp only [Logic.insertDescBy]
    split
    · exact (ih.cons y).trans (List.Perm.swap x y ys)
    · exact List.Perm.refl _

theorem foldl_insertDescBy_perm {α : Type} (key : α → String) (l acc : List α) :
    (l.foldl (fun a x => Logic.insertDescBy key x a) acc).Perm (acc ++ l) := by
  induction l generalizing acc with
  | nil => simp
  | cons x xs ih =>
    rw [List.foldl_cons]
    refine (ih (Logic.insertDescBy key x acc)).trans ?_
    refine (((insertDescBy_perm key x acc).append_right xs).trans ?_)
    exact List.perm_middle.symm

theorem sortDescBy_perm {α : Type} (key : α → String) (l : List α) :
    (Logic.sortDescBy key l).Perm l := by
  have h := foldl_insertDescBy_perm key l []
  simpa [Logic.sortDescBy] using h

theorem insertDescBy_head {α : Type} (key : α → String) (x : α) (l : List α) :
    (Logic.insertDescBy key x l).head? = some x ∨
      (Logic.insertDescBy key x l).head? = l.head? := by
  cases l with
  | nil => exact Or.inl rfl
  | cons y ys =>
    simp only [Logic.insertDescBy]
    split
    · exact Or.inr rfl
    · exact Or.inl rfl

theorem insertDescBy_sorted {α : Type} (key : α → String) (x : α) (l : List α)
    (h : l.Chain' (fun a b => key b ≤ key a)) :
    (Logic.insertDescBy key x l).Chain' (fun a b => key b ≤ key a) := by
  induction l with
  | nil => simp [Logic.insertDescBy]
  | cons y ys ih =>
    simp only [Logic.insertDescBy]
    split
    · rename_i hxy
      rw [List.chain'_cons'] at h ⊢
      refine ⟨?_, ih h.2⟩
      intro z hz
      rcases insertDescBy_head key x ys with hh | hh
      · rw [hh, Option.mem_some_iff] at hz
        exact hz ▸ hxy
      · exact h.1 z (hh ▸ hz)
    · rename_i hxy
      exact List.chain'_cons.mpr ⟨le_of_not_le hxy, h⟩

theorem sortDescBy_sorted {α : Type} (key : α → String) (l : List α) :
    (Logic.sortDescBy key l).Chain' (fun a b => key b ≤ key a) := by
  have h : ∀ acc : List α, acc.Chain' (fun a b => key b ≤ key a) →
      (l.foldl (fun a x => Logic.insertDescBy key x a) acc).Chain'
        (fun a b => key b ≤ key a) := by
    induction l with
    | nil => exact fun acc hacc => hacc
    | cons x xs ih =>
      intro acc hacc
      rw [List.foldl_cons]
      exact ih _ (insertDescBy_sorted key x acc hacc)
  exact h [] List.chain'_nil

theorem run_cycle_final_request (std : List ℚ → ℚ) (request : Logic.LearningRequest) :
    (Logic.run_learning_cycle std request).2 = Logic.preprocessRequest request := by
  by_cases h : (Logic.preprocessRequest request).trade_history = []
  · simp [Logic.run_learning_cycle, h]
  · simp [Logic.run_learning_cycle, h]

theorem preprocess_executed (request : Logic.LearningRequest) (er : Logic.ExecutionResult)
    (h1 : request.execution_result = some er) (h2 : er.status = some "executed")
    (h3 : request.trade_history ≠ []) :
    ∃ latest rest,
      Logic.sortDescBy (fun t => t.executed_at) request.trade_history = latest :: rest ∧
        (Logic.preprocessRequest request).trade_history =
          Logic.applyExecutionResult er latest :: rest := by
  obtain ⟨latest, rest, hs⟩ : ∃ a b,
      Logic.sortDescBy (fun t => t.executed_at) request.trade_history = a :: b := by
    cases hsort : Logic.sortDescBy (fun t => t.executed_at) request.trade_history with
    | nil =>
      have hperm := sortDescBy_perm (fun t : Logic.Trade => t.executed_at) request.trade_history
      rw [hsort] at hperm
      exact absurd hperm.symm.eq_nil h3
    | cons a b => exact ⟨a, b, rfl⟩
  refine ⟨latest, rest, hs, ?_⟩
  have hne : Logic.executionResultNonempty er = true := by
    simp [Logic.executionResultNonempty, h2]
  simp only [Logic.preprocessRequest, h1]
  rw [if_pos (⟨hne, h3⟩ : Logic.executionResultNonempty er = true ∧
    ¬request.trade_history = []), if_pos h2, hs]

theorem example_sort_computed :
    Logic.sortDescBy (fun t : Logic.Trade => t.executed_at)
        exampleMutableRequest.trade_history =
      [exampleTrade "T2" "A" "2026-01-02T00:00:00Z" none,
        exampleTrade "T1" "A" "2026-01-01T00:00:00Z" none] := by
  have hcomp : ¬ ((exampleTrade "T2" "A" "2026-01-02T00:00:00Z" none).executed_at ≤
      (exampleTrade "T1" "A" "2026-01-01T00:00:00Z" none).executed_at) := by
    simp only [exampleTrade]
    simp
    decide
  simp only [exampleMutableRequest, Logic.sortDescBy, List.foldl_cons, List.foldl_nil,
    Logic.insertDescBy]
  rw [if_neg hcomp]

theorem example_mutation_nontrivial :
    Logic.preprocessRequest exampleMutableRequest ≠ exampleMutableRequest := by
  obtain ⟨latest, rest, hsort, hh⟩ := preprocess_executed exampleMutableRequest
    exampleExecResult rfl rfl (by simp [exampleMutableRequest])
  rw [example_sort_computed] at hsort
  have hl : latest = exampleTrade "T2" "A" "2026-01-02T00:00:00Z" none := by
    injection hsort.symm
  have hr : rest = [exampleTrade "T1" "A" "2026-01-01T00:00:00Z" none] := by
    injection hsort.symm with e1 e2
  intro hEq
  have hth : (Logic.preprocessRequest exampleMutableRequest).trade_history =
      exampleMutableRequest.trade_history := congrArg (fun r => r.trade_history) hEq
  rw [hh, hl, hr] at hth
  have hhead : Logic.applyExecutionResult exampleExecResult
      (exampleTrade "T2" "A" "2026-01-02T00:00:00Z" none) =
      exampleTrade "T1" "A" "2026-01-01T00:00:00Z" none := by
    have := congrArg (fun l : List Logic.Trade => l.head?) hth
    simpa [exampleMutableRequest] using this
  have hid := congrArg (fun t : Logic.Trade => t.trade_id) hhead
  simp [Logic.applyExecutionResult, exampleTrade] at hid

/-- Claim C10: when execution_result has status "executed" and the trade
history is non-empty, `run_learning_cycle` rewrites its input request: the
request object it leaves behind has the trade history stably sorted
descending on `executed_at` (a sorted-descending permutation of the
original), with the most recent trade itself overwritten by the
execution result's pnl_pct/entry_price/exit_price fields; and on a
concrete input the caller's request object is observably changed. -/
theorem run_cycle_rewrites_request (std : List ℚ → ℚ) (request : Logic.LearningRequest)
    (er : Logic.ExecutionResult) (h1 : request.execution_result = some er)
    (h2 : er.status = some "executed") (h3 : request.trade_history ≠ []) :
    (∃ latest rest,
        Logic.sortDescBy (fun t => t.executed_at) request.trade_history = latest :: rest ∧
          (Logic.run_learning_cycle std request).2.trade_history =
            Logic.applyExecutionResult er latest :: rest) ∧
      (Logic.sortDescBy (fun t => t.executed_at) request.trade_history).Chain'
        (fun a b => b.executed_at ≤ a.executed_at) ∧
      (Logic.sortDescBy (fun t => t.executed_at) request.trade_history).Perm
        request.trade_history ∧
      Logic.preprocessRequest exampleMutableRequest ≠ exampleMutableRequest := by
  refine ⟨?_, sortDescBy_sorted _ _, sortDescBy_perm _ _, example_mutation_nontrivial⟩
  obtain ⟨latest, rest, hsort, hh⟩ := preprocess_executed request er h1 h2 h3
  exact ⟨latest, rest, hsort, by rw [run_cycle_final_request]; exact hh⟩

theorem alistLookup_addToGroup (groups : List (String × List Logic.Trade)) (t : Logic.Trade)
    (k : String) :
    (Logic.alistLookup (Logic.addToGroup groups t) k).getD [] =
      if t.asset_id = k then (Logic.alistLookup groups k).getD [] ++ [t]
      else (Logic.alistLookup groups k).getD [] := by
  induction groups with
  | nil =>
    by_cases h : t.asset_id = k <;> simp [Logic.addToGroup, Logic.alistLookup, h]
  | cons g rest ih =>
    obtain ⟨k₀, ts₀⟩ := g
    by_cases h₀ : k₀ = t.asset_id
    · by_cases hk : k₀ = k
      · have ht : t.asset_id = k := h₀ ▸ hk
        simp [Logic.addToGroup, Logic.alistLookup, h₀, hk, ht]
      · have ht : ¬ t.asset_id = k := fun hh => hk (h₀.trans hh)
        simp [Logic.addToGroup, Logic.alistLookup, h₀, hk, ht]
    · by_cases hk : k₀ = k
      · have ht : ¬ t.asset_id = k := fun hh => h₀ (hk.trans hh.symm)
        have ht2 : ¬ k = t.asset_id := fun hh => ht hh.symm
        simp [Logic.addToGroup, Logic.alistLookup, h₀, hk, ht, ht2]
      · simp [Logic.addToGroup, Logic.alistLookup, h₀, hk, ih]

theorem alistLookup_foldl_addToGroup (l : List Logic.Trade)
    (acc : List (String × List Logic.Trade)) (k : String) :
    (Logic.alistLookup (l.foldl Logic.addToGroup acc) k).getD [] =
      (Logic.alistLookup acc k).getD [] ++ l.filter (fun t => decide (t.asset_id = k)) := by
  induction l generalizing acc with
  | nil => simp
  | cons t ts ih =>
    rw [List.foldl_cons, ih, alistLookup_addToGroup]
    by_cases h : t.asset_id = k
    · rw [if_pos h, List.filter_cons_of_pos (by simpa using h), List.append_assoc]
      rfl
    · rw [if_neg h, List.filter_cons_of_neg (by simpa using h)]

theorem addToGroup_keys (groups : List (String × List Logic.Trade)) (t : Logic.Trade) :
    (Logic.addToGroup groups t).map Prod.fst =
      if t.asset_id ∈ groups.map Prod.fst then groups.map Prod.fst
      else groups.map Prod.fst ++ [t.asset_id] := by
  induction groups with
  | nil => simp [Logic.addToGroup]
  | cons g rest ih =>
    obtain ⟨k₀, ts₀⟩ := g
    by_cases h₀ : k₀ = t.asset_id
    · simp [Logic.addToGroup, h₀]
    · have : ¬ t.asset_id = k₀ := fun hh => h₀ hh.symm
      by_cases hmem : t.asset_id ∈ rest.map Prod.fst <;>
        simp [Logic.addToGroup, h₀, this, hmem, ih]

theorem addToGroup_keys_nodup (groups : List (String × List Logic.Trade)) (t : Logic.Trade)
    (h : (groups.map Prod.fst).Nodup) : ((Logic.addToGroup groups t).map Prod.fst).Nodup := by
  rw [addToGroup_keys]
  by_cases hmem : t.asset_id ∈ groups.map Prod.fst
  · rwa [if_pos hmem]
  · rw [if_neg hmem]
    simp [List.nodup_append, h, hmem]

theorem groupByAsset_keys_nodup (l : List Logic.Trade) :
    ((Logic.groupByAsset l).map Prod.fst).Nodup := by
  have h : ∀ acc : List (String × List Logic.Trade), (acc.map Prod.fst).Nodup →
      ((l.foldl Logic.addToGroup acc).map Prod.fst).Nodup := by
    induction l with
    | nil => exact fun acc hacc => hacc
    | cons t ts ih =>
      intro acc hacc
      rw [List.foldl_cons]
      exact ih _ (addToGroup_keys_nodup acc t hacc)
  exact h [] (by simp)

theorem alistLookup_of_mem {α : Type} (al : List (String × α))
    (hnd : (al.map Prod.fst).Nodup) (k : String) (v : α) (h : (k, v) ∈ al) :
    Logic.alistLookup al k = some v := by
  induction al with
  | nil => cases h
  | cons g rest ih =>
    obtain ⟨k₀, v₀⟩ := g
    rcases List.mem_cons.mp h with heq | hmem
    · obtain ⟨e1, e2⟩ := Prod.mk.inj_iff.mp heq.symm
      simp [Logic.alistLookup, e1, e2]
    · have hk : ¬ k₀ = k := by
        intro hk
        have : k ∈ rest.map Prod.fst :=
          List.mem_map.mpr ⟨(k, v), hmem, rfl⟩
        rw [List.map_cons] at hnd
        exact (List.nodup_cons.mp hnd).1 (hk ▸ this)
      simp only [Logic.alistLookup, if_neg hk]
      exact ih (List.nodup_cons.mp (by rwa [List.map_cons] at hnd)).2 hmem

theorem groupByAsset_mem_filter (l : List Logic.Trade) (a : String) (ts : List Logic.Trade)
    (h : (a, ts) ∈ Logic.groupByAsset l) :
    ts = l.filter (fun t => decide (t.asset_id = a)) := by
  have hlk := alistLookup_of_mem _ (groupByAsset_keys_nodup l) a ts h
  have hfold := alistLookup_foldl_addToGroup l [] a
  unfold Logic.groupByAsset at hlk
  rw [hlk] at hfold
  simpa [Logic.alistLookup] using hfold

theorem processAsset_biases (std : List ℚ → ℚ)
    (ph : List (String × List Logic.PricePoint)) (acc : Logic.CycleAcc) (k : String)
    (ts : List Logic.Trade) :
    (Logic.processAsset std ph acc k ts).asset_biases = acc.asset_biases ∨
      (∃ d, (Logic.processAsset std ph acc k ts).asset_biases = acc.asset_biases ++ [(k, d)] ∧
        Logic.ASSET_MIN_TRADES_WARMUP ≤ ts.length) := by
  simp only [Logic.processAsset]
  split
  · exact Or.inl rfl
  · rename_i hw
    by_cases hd : Logic.assetBiasDelta std ph k ts ≠ 0
    · rw [if_pos hd]
      exact Or.inr ⟨_, rfl, not_lt.mp hw⟩
    · rw [if_neg hd]
      exact Or.inl rfl

theorem foldl_processAsset_biases_not_mem (std : List ℚ → ℚ)
    (ph : List (String × List Logic.PricePoint))
    (groups : List (String × List Logic.Trade)) (a : String) :
    ∀ acc : Logic.CycleAcc, a ∉ acc.asset_biases.map Prod.fst →
      (∀ p ∈ groups, p.1 = a → p.2.length < Logic.ASSET_MIN_TRADES_WARMUP) →
      a ∉ ((groups.foldl (fun ac g => Logic.processAsset std ph ac g.1 g.2)
        acc).asset_biases.map Prod.fst) := by
  induction groups with
  | nil => exact fun acc h _ => h
  | cons g gs ih =>
    intro acc hacc hall
    rw [List.foldl_cons]
    refine ih _ ?_ (fun p hp => hall p (List.mem_cons_of_mem g hp))
    rcases processAsset_biases std ph acc g.1 g.2 with h | ⟨d, h, hlen⟩
    · rw [h]; exact hacc
    · rw [h]
      intro hmem
      rw [List.map_append] at hmem
      rcases List.mem_append.mp hmem with hm | hm
      · exact hacc hm
      · simp only [List.map_cons, List.map_nil, List.mem_singleton] at hm
        have := hall g (List.mem_cons_self g gs) hm.symm
        omega

theorem preprocess_countP (request : Logic.LearningRequest) (p : Logic.Trade → Bool)
    (hp : ∀ er t, p (Logic.applyExecutionResult er t) = p t) :
    (Logic.preprocessRequest request).trade_history.countP p =
      request.trade_history.countP p := by
  cases hex : request.execution_result with
  | none => simp [Logic.preprocessRequest, hex]
  | some er =>
    simp only [Logic.preprocessRequest, hex]
    split
    · split
      · have hperm := sortDescBy_perm (fun t : Logic.Trade => t.executed_at)
          request.trade_history
        cases hsort : Logic.sortDescBy (fun t : Logic.Trade => t.executed_at)
            request.trade_history with
        | nil =>
          rw [hsort] at hperm
          simp [← hperm.countP_eq p]
        | cons latest rest =>
          rw [hsort] at hperm
          simp only [List.countP_cons, hp er latest]
          have := hperm.countP_eq p
          simp only [List.countP_cons] at this
          simpa using this
      · rfl
    · rfl

/-- Claim C3: for every input and every asset whose trade group has fewer
than 10 trades, that asset id is absent from the returned
policy_deltas.asset_biases map — it is skipped before any scoring. -/
theorem warmup_asset_never_biased (std : List ℚ → ℚ) (request : Logic.LearningRequest)
    (a : String)
    (h : request.trade_history.countP (fun t => decide (t.asset_id = a)) <
      Logic.ASSET_MIN_TRADES_WARMUP) :
    a ∉ ((Logic.run_learning_cycle std request).1.policy_deltas.asset_biases.map
      Prod.fst) := by
  have hcount : (Logic.preprocessRequest request).trade_history.countP
      (fun t => decide (t.asset_id = a)) < Logic.ASSET_MIN_TRADES_WARMUP := by
    rw [preprocess_countP request (fun t => decide (t.asset_id = a)) (fun er t => rfl)]
    exact h
  unfold Logic.run_learning_cycle
  by_cases hnil : (Logic.preprocessRequest request).trade_history = []
  · simp [hnil]
  · rw [if_neg hnil]
    simp only
    refine foldl_processAsset_biases_not_mem std (Logic.preprocessRequest request).price_history
      (Logic.groupByAsset (Logic.preprocessRequest request).trade_history) a _ (by simp) ?_
    intro p hp hpa
    obtain ⟨k, ts⟩ := p
    simp only at hpa
    subst hpa
    rw [groupByAsset_mem_filter _ _ _ hp, ← List.countP_eq_length_filter]
    exact hcount

theorem prefixNeg_cons (n : Nat) (p : ℚ) (ps : List ℚ) :
    prefixNeg (n + 1) (p :: ps) ↔ p < 0 ∧ prefixNeg n ps := by
  unfold prefixNeg
  rw [List.take_succ_cons, List.forall_mem_cons, List.length_cons]
  constructor
  · rintro ⟨hlen, hp, hall⟩
    exact ⟨hp, Nat.le_of_succ_le_succ hlen, hall⟩
  · rintro ⟨hp, hlen, hall⟩
    exact ⟨Nat.succ_le_succ hlen, hp, hall⟩

theorem prefixNeg_mono (m n : Nat) (l : List ℚ) (h : m ≤ n) (hp : prefixNeg n l) :
    prefixNeg m l := by
  obtain ⟨hlen, hall⟩ := hp
  refine ⟨le_trans h hlen, ?_⟩
  intro x hx
  have : x ∈ l.take n := by
    have ht : l.take m = (l.take n).take m := by
      rw [List.take_take, Nat.min_eq_left h]
    exact List.take_subset m (l.take n) (ht ▸ hx)
  exact hall x this

theorem prefixNeg_hasLossRun3 (l : List ℚ) (h : prefixNeg 3 l) : hasLossRun3 l := by
  obtain ⟨hlen, hall⟩ := h
  refine ⟨[], l.take 3, l.drop 3, by rw [List.nil_append, List.take_append_drop], ?_, hall⟩
  rw [List.length_take]
  omega

theorem hasLossRun3_cons_iff (p : ℚ) (ps : List ℚ) :
    hasLossRun3 (p :: ps) ↔ ((p < 0 ∧ prefixNeg 2 ps) ∨ hasLossRun3 ps) := by
  constructor
  · rintro ⟨pre, mid, post, heq, hlen, hneg⟩
    cases pre with
    | nil =>
      rw [List.nil_append] at heq
      cases mid with
      | nil => simp at hlen
      | cons m0 mid' =>
        rw [List.cons_append] at heq
        obtain ⟨e1, e2⟩ := List.cons.injEq .. ▸ heq
        left
        refine ⟨e1 ▸ hneg m0 (List.mem_cons_self m0 mid'), ?_, ?_⟩
        · rw [e2, List.length_append]
          have : 2 ≤ mid'.length := by
            have := hlen
            simp only [List.length_cons] at this
            omega
          omega
        · intro x hx
          rw [e2] at hx
          have h2 : 2 ≤ mid'.length := by
            have := hlen
            simp only [List.length_cons] at this
            omega
          have ht : (mid' ++ post).take 2 = mid'.take 2 := by
            rw [List.take_append_eq_append_take, Nat.sub_eq_zero_of_le h2, List.take_zero,
              List.append_nil]
          rw [ht] at hx
          exact hneg x (List.mem_cons_of_mem m0 (List.take_subset 2 mid' hx))
    | cons q pre' =>
      rw [List.cons_append] at heq
      obtain ⟨e1, e2⟩ := List.cons.injEq .. ▸ heq
      exact Or.inr ⟨pre', mid, post, e2, hlen, hneg⟩
  · rintro (⟨hp, hlen, hall⟩ | ⟨pre, mid, post, heq, hlen, hneg⟩)
    · refine ⟨[], p :: ps.take 2, ps.drop 2, ?_, ?_, ?_⟩
      · rw [List.nil_append, List.cons_append, List.take_append_drop]
      · simp only [List.length_cons, List.length_take]
        omega
      · intro x hx
        rcases List.mem_cons.mp hx with rfl | hx
        · exact hp
        · exact hall x hx
    · exact ⟨p :: pre, mid, post, by rw [heq]; simp, hlen, hneg⟩

theorem consecLossGo_iff (l : List ℚ) : ∀ c : Nat, c < 3 →
    (Logic.consecLossGo c l = true ↔ (prefixNeg (3 - c) l ∨ hasLossRun3 l)) := by
  induction l with
  | nil =>
    intro c hc
    simp only [Logic.consecLossGo]
    constructor
    · intro h; cases h
    · rintro (⟨hlen, _⟩ | ⟨pre, mid, post, heq, hlen, _⟩)
      · simp only [List.length_nil, Nat.le_zero] at hlen
        omega
      · have := congrArg List.length heq
        simp only [List.length_nil, List.length_append] at this
        omega
  | cons p ps ih =>
    intro c hc
    simp only [Logic.consecLossGo, Logic.CONSECUTIVE_LOSS_THRESHOLD]
    by_cases hp : p < 0
    · rw [if_pos hp]
      by_cases hc3 : 3 ≤ c + 1
      · rw [if_pos hc3]
        have hc2 : c = 2 := by omega
        subst hc2
        constructor
        · intro _
          left
          show prefixNeg 1 (p :: ps)
          rw [show (1 : Nat) = 0 + 1 from rfl, prefixNeg_cons]
          exact ⟨hp, by simp [prefixNeg]⟩
        · intro _; rfl
      · rw [if_neg hc3]
        rw [ih (c + 1) (by omega)]
        have h3c : 3 - c = (2 - c) + 1 := by omega
        have h3c1 : 3 - (c + 1) = 2 - c := by omega
        rw [h3c, h3c1, prefixNeg_cons, hasLossRun3_cons_iff]
        constructor
        · rintro (hpre | hrun)
          · exact Or.inl ⟨hp, hpre⟩
          · exact Or.inr (Or.inr hrun)
        · rintro (⟨_, hpre⟩ | (⟨_, hpre2⟩ | hrun))
          · exact Or.inl hpre
          · exact Or.inl (prefixNeg_mono _ 2 ps (by omega) hpre2)
          · exact Or.inr hrun
    · rw [if_neg hp]
      rw [ih 0 (by omega)]
      have h30 : 3 - 0 = 3 := rfl
      rw [h30]
      constructor
      · rintro (hpre | hrun)
        · exact Or.inr ((hasLossRun3_cons_iff p ps).mpr (Or.inr (prefixNeg_hasLossRun3 ps hpre)))
        · exact Or.inr ((hasLossRun3_cons_iff p ps).mpr (Or.inr hrun))
      · rintro (⟨hlen, hall⟩ | hrun)
        · exfalso
          have h1 : (1:Nat) ≤ 3 - c := by omega
          have := prefixNeg_mono 1 (3 - c) (p :: ps) h1 ⟨hlen, hall⟩
          obtain ⟨_, hall1⟩ := this
          exact hp (hall1 p (by simp))
        · rcases (hasLossRun3_cons_iff p ps).mp hrun with ⟨hp', _⟩ | hrun'
          · exact absurd hp' hp
          · exact Or.inr hrun'

theorem consecutiveLossFlag_iff (l : List ℚ) :
    Logic.consecutiveLossFlag l = true ↔ hasLossRun3 l := by
  unfold Logic.consecutiveLossFlag
  rw [consecLossGo_iff l 0 (by omega)]
  constructor
  · rintro (hpre | hrun)
    · exact prefixNeg_hasLossRun3 l hpre
    · exact hrun
  · exact Or.inr

theorem assetRiskFlagged_iff (std : List ℚ → ℚ)
    (ph : List (String × List Logic.PricePoint)) (k : String) (ts : List Logic.Trade) :
    Logic.assetRiskFlagged std ph k ts = true ↔
      (hasLossRun3 ((Logic.recentPairs ts (Logic.assetPnls ph k ts)).map Prod.snd) ∨
        Logic.MAX_DRAWDOWN_THRESHOLD < Logic.maxDrawdownOfPnls
          ((Logic.recentPairs ts (Logic.assetPnls ph k ts)).map Prod.snd)) := by
  simp only [Logic.assetRiskFlagged, Logic._calculate_asset_performance, Bool.or_eq_true,
    decide_eq_true_eq, consecutiveLossFlag_iff]

theorem processAsset_riskFlag (std : List ℚ → ℚ)
    (ph : List (String × List Logic.PricePoint)) (acc : Logic.CycleAcc) (k : String)
    (ts : List Logic.Trade) :
    (Logic.processAsset std ph acc k ts).riskFlag =
      (acc.riskFlag || (!decide (ts.length < Logic.ASSET_MIN_TRADES_WARMUP) &&
        Logic.assetRiskFlagged std ph k ts)) := by
  simp only [Logic.processAsset]
  split
  · rename_i hw
    simp [hw]
  · rename_i hw
    by_cases hd : Logic.assetBiasDelta std ph k ts ≠ 0
    · rw [if_pos hd]
      simp [hw]
    · rw [if_neg hd]
      simp [hw]

theorem foldl_processAsset_riskFlag (std : List ℚ → ℚ)
    (ph : List (String × List Logic.PricePoint))
    (groups : List (String × List Logic.Trade)) :
    ∀ acc : Logic.CycleAcc,
      (groups.foldl (fun ac g => Logic.processAsset std ph ac g.1 g.2) acc).riskFlag =
        (acc.riskFlag || groups.any (fun g =>
          !decide (g.2.length < Logic.ASSET_MIN_TRADES_WARMUP) &&
            Logic.assetRiskFlagged std ph g.1 g.2)) := by
  induction groups with
  | nil => intro acc; simp
  | cons g gs ih =>
    intro acc
    rw [List.foldl_cons, ih, processAsset_riskFlag, List.any_cons, Bool.or_assoc]

theorem any_flag_iff (std : List ℚ → ℚ) (ph : List (String × List Logic.PricePoint))
    (groups : List (String × List Logic.Trade)) :
    (groups.any (fun g => !decide (g.2.length < Logic.ASSET_MIN_TRADES_WARMUP) &&
        Logic.assetRiskFlagged std ph g.1 g.2) = true) ↔
      ∃ g ∈ groups, Logic.ASSET_MIN_TRADES_WARMUP ≤ g.2.length ∧
        (hasLossRun3 ((Logic.recentPairs g.2 (Logic.assetPnls ph g.1 g.2)).map Prod.snd) ∨
          Logic.MAX_DRAWDOWN_THRESHOLD < Logic.maxDrawdownOfPnls
            ((Logic.recentPairs g.2 (Logic.assetPnls ph g.1 g.2)).map Prod.snd)) := by
  rw [List.any_eq_true]
  simp only [Bool.and_eq_true, Bool.not_eq_true', decide_eq_false_iff_not, not_lt,
    assetRiskFlagged_iff]

/-- Claim C4: the returned policy_deltas.risk is exactly the single global
entry risk_per_trade = −0.005 precisely when some asset group of at least
10 trades has, over its 10 most-recent trades, a run of 3 or more
consecutive losses or a recomputed max drawdown above 0.08 — regardless of
how many assets were flagged — and otherwise the risk map is empty. -/
theorem risk_delta_characterization (std : List ℚ → ℚ) (request : Logic.LearningRequest) :
    ((Logic.run_learning_cycle std request).1.policy_deltas.risk =
        [("risk_per_trade", (-0.005 : ℚ))] ↔
      ((Logic.preprocessRequest request).trade_history ≠ [] ∧
        ∃ g ∈ Logic.groupByAsset (Logic.preprocessRequest request).trade_history,
          Logic.ASSET_MIN_TRADES_WARMUP ≤ g.2.length ∧
            (hasLossRun3 ((Logic.recentPairs g.2 (Logic.assetPnls
                (Logic.preprocessRequest request).price_history g.1 g.2)).map Prod.snd) ∨
              (0.08 : ℚ) < Logic.maxDrawdownOfPnls ((Logic.recentPairs g.2 (Logic.assetPnls
                (Logic.preprocessRequest request).price_history g.1 g.2)).map Prod.snd)))) ∧
      ((Logic.run_learning_cycle std request).1.policy_deltas.risk =
          [("risk_per_trade", (-0.005 : ℚ))] ∨
        (Logic.run_learning_cycle std request).1.policy_deltas.risk = []) := by
  have hval : Logic.RISK_PER_TRADE_ADJUSTMENT = (-0.005 : ℚ) := by
    norm_num [Logic.RISK_PER_TRADE_ADJUSTMENT]
  have hthr : Logic.MAX_DRAWDOWN_THRESHOLD = (0.08 : ℚ) := by
    norm_num [Logic.MAX_DRAWDOWN_THRESHOLD]
  by_cases hnil : (Logic.preprocessRequest request).trade_history = []
  · constructor
    · simp [Logic.run_learning_cycle, hnil]
    · exact Or.inr (by simp [Logic.run_learning_cycle, hnil])
  · have hrisk : (Logic.run_learning_cycle std request).1.policy_deltas.risk =
        (if (Logic.groupByAsset (Logic.preprocessRequest request).trade_history).any
            (fun g => !decide (g.2.length < Logic.ASSET_MIN_TRADES_WARMUP) &&
              Logic.assetRiskFlagged std (Logic.preprocessRequest request).price_history
                g.1 g.2) then
          [("risk_per_trade", Logic.RISK_PER_TRADE_ADJUSTMENT)] else []) := by
      simp only [Logic.run_learning_cycle, if_neg hnil]
      rw [foldl_processAsset_riskFlag]
      rw [Bool.false_or]
    by_cases hflag : (Logic.groupByAsset (Logic.preprocessRequest request).trade_history).any
        (fun g => !decide (g.2.length < Logic.ASSET_MIN_TRADES_WARMUP) &&
          Logic.assetRiskFlagged std (Logic.preprocessRequest request).price_history
            g.1 g.2) = true
    · rw [hrisk, if_pos hflag, hval]
      refine ⟨?_, Or.inl rfl⟩
      constructor
      · intro _
        refine ⟨hnil, ?_⟩
        have := (any_flag_iff std (Logic.preprocessRequest request).price_history
          (Logic.groupByAsset (Logic.preprocessRequest request).trade_history)).mp hflag
        rwa [hthr] at this
      · intro _; rfl
    · rw [hrisk, if_neg hflag]
      constructor
      · constructor
        · intro h; simp at h
        · rintro ⟨_, hex⟩
          exfalso
          apply hflag
          rw [any_flag_iff, hthr]
          exact hex
      · exact Or.inr rfl

/-- Witness for C3 at a request whose only asset has a single trade. -/
theorem warmup_asset_never_biased_witness :
    "A" ∉ ((Logic.run_learning_cycle zeroStd exampleWarmupRequest).1.policy_deltas.asset_biases.map
      Prod.fst) :=
  warmup_asset_never_biased zeroStd exampleWarmupRequest "A" (by decide)

theorem dedupeByIdAux_mem (l : List Logic.Trade) : ∀ (seen : List String)
    (t : Logic.Trade), t ∈ Spec.dedupeByIdAux seen l → t ∈ l ∧ t.trade_id ∉ seen := by
  induction l with
  | nil => intro seen t h; cases h
  | cons u us ih =>
    intro seen t h
    simp only [Spec.dedupeByIdAux] at h
    split at h
    · obtain ⟨h1, h2⟩ := ih seen t h
      exact ⟨List.mem_cons_of_mem u h1, h2⟩
    · rename_i hmem
      rcases List.mem_cons.mp h with rfl | h'
      · exact ⟨List.mem_cons_self _ _, hmem⟩
      · obtain ⟨h1, h2⟩ := ih _ t h'
        exact ⟨List.mem_cons_of_mem u h1, fun hc => h2 (List.mem_cons_of_mem _ hc)⟩

theorem dedupeByIdAux_nodup (l : List Logic.Trade) : ∀ seen : List String,
    ((Spec.dedupeByIdAux seen l).map (fun t => t.trade_id)).Nodup := by
  induction l with
  | nil => intro seen; simp [Spec.dedupeByIdAux]
  | cons u us ih =>
    intro seen
    simp only [Spec.dedupeByIdAux]
    split
    · exact ih seen
    · rw [List.map_cons, List.nodup_cons]
      refine ⟨?_, ih _⟩
      intro hc
      obtain ⟨t, ht, hid⟩ := List.mem_map.mp hc
      obtain ⟨_, hnot⟩ := dedupeByIdAux_mem us _ t ht
      exact hnot (by rw [hid]; exact List.mem_cons_self _ _)

theorem dedupeByIdAux_covers (l : List Logic.Trade) : ∀ (seen : List String)
    (t : Logic.Trade), t ∈ l → t.trade_id ∉ seen →
      ∃ u ∈ Spec.dedupeByIdAux seen l, u.trade_id = t.trade_id := by
  induction l with
  | nil => intro seen t h; cases h
  | cons v vs ih =>
    intro seen t ht hseen
    simp only [Spec.dedupeByIdAux]
    split
    · rename_i hv
      rcases List.mem_cons.mp ht with rfl | ht'
      · exact absurd hv hseen
      · exact ih seen t ht' hseen
    · rename_i hv
      rcases List.mem_cons.mp ht with rfl | ht'
      · exact ⟨t, List.mem_cons_self _ _, rfl⟩
      · by_cases hid : t.trade_id = v.trade_id
        · exact ⟨v, List.mem_cons_self _ _, hid.symm⟩
        · have hnotc : t.trade_id ∉ v.trade_id :: seen := by
            intro hc
            rcases List.mem_cons.mp hc with h | h
            · exact hid h
            · exact hseen h
          obtain ⟨u, hu, hid'⟩ := ih _ t ht' hnotc
          exact ⟨u, List.mem_cons_of_mem v hu, hid'⟩

theorem dedupeByIdAux_supplied_wins (ys : List Logic.Trade) (xs : List Logic.Trade) :
    ∀ (seen : List String) (t : Logic.Trade), t ∈ Spec.dedupeByIdAux seen (xs ++ ys) →
      t.trade_id ∈ xs.map (fun u => u.trade_id) → t ∈ xs := by
  induction xs with
  | nil =>
    intro seen t _ hmem
    simp at hmem
  | cons x xs' ih =>
    intro seen t ht hmem
    rw [List.cons_append] at ht
    simp only [Spec.dedupeByIdAux] at ht
    rw [List.map_cons] at hmem
    split at ht
    · rename_i hx
      rcases List.mem_cons.mp hmem with heq | hmem'
      · obtain ⟨_, hnot⟩ := dedupeByIdAux_mem _ _ _ ht
        exact absurd (by rw [heq]; exact hx) hnot
      · exact List.mem_cons_of_mem x (ih seen t ht hmem')
    · rcases List.mem_cons.mp ht with rfl | ht'
      · exact List.mem_cons_self _ _
      · rcases List.mem_cons.mp hmem with heq | hmem'
        · obtain ⟨_, hnot⟩ := dedupeByIdAux_mem _ _ _ ht'
          exact absurd (by rw [heq]; exact List.mem_cons_self _ _) hnot
        · exact List.mem_cons_of_mem x (ih _ t ht' hmem')

/-- Claim C2: the merged set used before grouping carries no duplicate
trade ids, represents every supplied and every fetched trade id, invents no
trade, and on an id conflict keeps the supplied trade rather than the
fetched one. -/
theorem merged_trades_characterization (fetch : String → List Logic.Trade)
    (supplied : List Logic.Trade) :
    ((Spec.mergedTrades fetch supplied).map (fun t => t.trade_id)).Nodup ∧
      (∀ t ∈ supplied ++ (Spec.distinctAssets supplied).flatMap fetch,
        ∃ u ∈ Spec.mergedTrades fetch supplied, u.trade_id = t.trade_id) ∧
      (∀ u ∈ Spec.mergedTrades fetch supplied,
        u.trade_id ∈ supplied.map (fun t => t.trade_id) → u ∈ supplied) ∧
      (∀ u ∈ Spec.mergedTrades fetch supplied,
        u ∈ supplied ∨ u ∈ (Spec.distinctAssets supplied).flatMap fetch) := by
  refine ⟨dedupeByIdAux_nodup _ [], ?_, ?_, ?_⟩
  · intro t ht
    exact dedupeByIdAux_covers _ [] t ht (by simp)
  · intro u hu hid
    exact dedupeByIdAux_supplied_wins _ supplied [] u hu hid
  · intro u hu
    obtain ⟨h1, _⟩ := dedupeByIdAux_mem _ [] u hu
    exact List.mem_append.mp h1

/-- Claim C1: in the bias-blended learning cycle, every asset with at
least 10 trades is scored exactly as the claim states — win-rate taken
directly, drawdown score 1 − min(1, max_drawdown/0.20), volatility score
1 − min(1, volatility/0.10) with the asset's vol_bias added and re-clamped
to [0,1], combined with weights 0.50/0.35/0.15 into a base score, then
bull_bias added when the base score exceeds 0.5 and bear_bias subtracted
otherwise, and the final score clamped to [0,1]; the cycle's ±0.05 bias
decision for such an asset is driven by exactly that score. -/
theorem hybrid_score_formula (std : List ℚ → ℚ) (biasOf : String → Spec.AssetBias)
    (ph : List (String × List Logic.PricePoint)) (asset_id : String)
    (trades : List Logic.Trade)
    (h : Logic.ASSET_MIN_TRADES_WARMUP ≤ trades.length) :
    (Spec.cycleAssetScore std biasOf ph asset_id trades =
      (let perf := Logic._calculate_asset_performance std trades
        (Logic.assetPnls ph asset_id trades)
      let wr_score := perf.win_rate
      let mdd_score := 1 - min 1 (perf.max_drawdown / (20 / 100))
      let vol_score := max 0 (min 1
        (1 - min 1 (perf.volatility / (10 / 100)) + (biasOf asset_id).vol_bias))
      let base := (50 / 100) * wr_score + (35 / 100) * mdd_score + (15 / 100) * vol_score
      max 0 (min 1 (if 1 / 2 < base then base + (biasOf asset_id).bull_bias
        else base - (biasOf asset_id).bear_bias)))) ∧
      ∀ acc : Logic.CycleAcc,
        (Spec.processAssetSpec std biasOf ph acc asset_id trades).asset_biases =
          acc.asset_biases ++
            (if (70 : ℚ) / 100 < Spec.cycleAssetScore std biasOf ph asset_id trades then
              [(asset_id, (5 : ℚ) / 100)]
            else if Spec.cycleAssetScore std biasOf ph asset_id trades < (45 : ℚ) / 100 then
              [(asset_id, -((5 : ℚ) / 100))]
            else []) := by
  refine ⟨rfl, ?_⟩
  intro acc
  simp only [Spec.processAssetSpec, if_neg (not_lt.mpr h), Spec.assetBiasDeltaSpec,
    Logic.PERFORMANCE_UPPER_THRESHOLD, Logic.PERFORMANCE_LOWER_THRESHOLD,
    Logic.BIAS_ADJUSTMENT_INCREMENT]
  by_cases h1 : (70 : ℚ) / 100 < Spec.cycleAssetScore std biasOf ph asset_id trades
  · rw [if_pos h1, if_pos h1, if_pos (by norm_num : ((5 : ℚ) / 100) ≠ 0)]
  · rw [if_neg h1, if_neg h1]
    by_cases h2 : Spec.cycleAssetScore std biasOf ph asset_id trades < (45 : ℚ) / 100
    · rw [if_pos h2, if_pos h2, if_pos (by norm_num : (-((5 : ℚ) / 100)) ≠ 0)]
    · rw [if_neg h2, if_neg h2, if_neg (by norm_num : ¬((0 : ℚ) ≠ 0)), List.append_nil]

/-- Witness for C1 at ten concrete profitable trades with a zero bias
snapshot. -/
theorem hybrid_score_formula_witness :
    (Spec.cycleAssetScore zeroStd zeroBiasStore [] "BTC-USD" exampleTenTrades =
      (let perf := Logic._calculate_asset_performance zeroStd exampleTenTrades
        (Logic.assetPnls [] "BTC-USD" exampleTenTrades)
      let wr_score := perf.win_rate
      let mdd_score := 1 - min 1 (perf.max_drawdown / (20 / 100))
      let vol_score := max 0 (min 1
        (1 - min 1 (perf.volatility / (10 / 100)) + (zeroBiasStore "BTC-USD").vol_bias))
      let base := (50 / 100) * wr_score + (35 / 100) * mdd_score + (15 / 100) * vol_score
      max 0 (min 1 (if 1 / 2 < base then base + (zeroBiasStore "BTC-USD").bull_bias
        else base - (zeroBiasStore "BTC-USD").bear_bias)))) ∧
      ∀ acc : Logic.CycleAcc,
        (Spec.processAssetSpec zeroStd zeroBiasStore [] acc "BTC-USD"
            exampleTenTrades).asset_biases =
          acc.asset_biases ++
            (if (70 : ℚ) / 100 <
                Spec.cycleAssetScore zeroStd zeroBiasStore [] "BTC-USD" exampleTenTrades then
              [("BTC-USD", (5 : ℚ) / 100)]
            else if Spec.cycleAssetScore zeroStd zeroBiasStore [] "BTC-USD" exampleTenTrades <
                (45 : ℚ) / 100 then
              [("BTC-USD", -((5 : ℚ) / 100))]
            else []) :=
  hybrid_score_formula zeroStd zeroBiasStore [] "BTC-USD" exampleTenTrades (by decide)

/-- Witness for C10 at a concrete two-trade request with an executed
execution result. -/
theorem run_cycle_rewrites_request_witness :
    (∃ latest rest,
        Logic.sortDescBy (fun t => t.executed_at) exampleMutableRequest.trade_history =
            latest :: rest ∧
          (Logic.run_learning_cycle zeroStd exampleMutableRequest).2.trade_history =
            Logic.applyExecutionResult exampleExecResult latest :: rest) ∧
      (Logic.sortDescBy (fun t => t.executed_at) exampleMutableRequest.trade_history).Chain'
        (fun a b => b.executed_at ≤ a.executed_at) ∧
      (Logic.sortDescBy (fun t => t.executed_at) exampleMutableRequest.trade_history).Perm
        exampleMutableRequest.trade_history ∧
      Logic.preprocessRequest exampleMutableRequest ≠ exampleMutableRequest :=
  run_cycle_rewrites_request zeroStd exampleMutableRequest exampleExecResult rfl rfl
    (by simp [exampleMutableRequest])

end LearningAgent
